import Mathlib

/-!
Verification of the trading-journal computational core.

Shallow embedding conventions:
* `f64` values are modelled as exact rationals (`ℚ`); the code never relies on
  float rounding for the properties below, and all divisions in the source are
  guarded, so the rational model is faithful to the guarded control flow.
  `f64::INFINITY` (which the source produces only for the profit factor) is
  modelled by a dedicated sum type `F64Val`.
* Strings processed by the parser are modelled as `List Char` (Rust `&str`
  at Unicode-scalar granularity).
* `chrono::NaiveDate` is modelled as a year/month/day triple with the usual
  lexicographic order and a calendar-validity check mirroring
  `NaiveDate::from_ymd_opt` (the astronomically large year bound of `chrono`
  is omitted: every year the parser can produce has at most four digits).
* Rust `Result` is `Except String`, fallible parses are `Option`.
* `Vec::sort_by` / `sort_by_key` are stable sorts; a stable sort's output is
  uniquely determined by the comparator and input order, so they are embedded
  as `List.insertionSort` (stable) with the corresponding key relation.
-/

namespace FTJ

/-- Model of `f64` quantities as exact rationals. -/
abbrev F : Type := ℚ

/-- Model of an `f64` value that may be the IEEE positive infinity produced by
`f64::INFINITY` in the profit-factor computation. -/
inductive F64Val where
  | finite (x : F)
  | inf
deriving DecidableEq

/-- Model of `chrono::NaiveDate`: a calendar day as stored (year, month, day). -/
structure Date where
  y : Int
  m : Nat
  d : Nat
deriving DecidableEq

/-- Chronological (lexicographic) order on dates, the `Ord` of `NaiveDate`. -/
def Date.le (a b : Date) : Prop :=
  a.y < b.y ∨ (a.y = b.y ∧ (a.m < b.m ∨ (a.m = b.m ∧ a.d ≤ b.d)))

/-- Strict chronological order on dates. -/
def Date.lt (a b : Date) : Prop := Date.le a b ∧ a ≠ b

instance (a b : Date) : Decidable (Date.le a b) := by
  unfold Date.le; infer_instance

instance (a b : Date) : Decidable (Date.lt a b) := by
  unfold Date.lt; infer_instance

instance : IsTotal Date Date.le :=
  ⟨fun a b => by unfold Date.le; omega⟩

instance : IsTrans Date Date.le :=
  ⟨fun a b c h₁ h₂ => by unfold Date.le at h₁ h₂ ⊢; omega⟩

instance : IsRefl Date Date.le :=
  ⟨fun a => by unfold Date.le; omega⟩

instance : IsAntisymm Date Date.le :=
  ⟨fun a b h₁ h₂ => by
    rcases a with ⟨ay, am, ad⟩
    rcases b with ⟨by_, bm, bd⟩
    unfold Date.le at h₁ h₂
    simp only [Date.mk.injEq]
    dsimp only at h₁ h₂
    omega⟩

/-- Number of days in a month, per the proleptic Gregorian calendar used by
`chrono` (leap years divisible by 4, except centuries not divisible by 400). -/
def daysInMonth (y : Int) (m : Nat) : Nat :=
  if m = 2 then (if y % 4 = 0 ∧ (y % 100 ≠ 0 ∨ y % 400 = 0) then 29 else 28)
  else if m = 4 ∨ m = 6 ∨ m = 9 ∨ m = 11 then 30
  else 31

/-- Model of `NaiveDate::from_ymd_opt`: `some` exactly on valid calendar dates. -/
def fromYmd (y : Int) (m d : Nat) : Option Date :=
  if 1 ≤ m ∧ m ≤ 12 ∧ 1 ≤ d ∧ d ≤ daysInMonth y m then some ⟨y, m, d⟩ else none

/-! ### Core enums (src/src-tauri/src/models/trade.rs) -/

/-- Trade direction. -/
inductive Direction where
  | Long
  | Short
deriving DecidableEq

/-- Trade status. -/
inductive Status where
  | Open
  | Closed
deriving DecidableEq

/-- Trade result classification. -/
inductive TradeResult where
  | Win
  | Loss
  | Breakeven
deriving DecidableEq

/-- Asset class for the trade. -/
inductive AssetClass where
  | Stock
  | Option
deriving DecidableEq

/-- Contract multiplier for this asset class (`AssetClass::multiplier`). -/
def AssetClass.multiplier : AssetClass → F
  | .Stock => 1
  | .Option => 100

/-! ### Trade records (fields that enter the computations; purely
descriptive identity fields — ids, symbol strings, timestamps, notes —
are omitted because no claimed computation reads them). -/

/-- Core trade entity (`Trade`), restricted to computation-relevant fields. -/
structure Trade where
  trade_date : Date
  direction : Direction
  quantity : Option F
  entry_price : F
  exit_price : Option F
  stop_loss_price : Option F
  fees : F
  asset_class : AssetClass
  status : Status
deriving DecidableEq

/-- Derived fields computed from trade data (`DerivedFields`). -/
structure DerivedFields where
  gross_pnl : Option F
  net_pnl : Option F
  pnl_per_share : Option F
  risk_per_share : Option F
  r_multiple : Option F
  result : Option TradeResult
deriving DecidableEq

/-- Trade with computed derived fields (`TradeWithDerived`). -/
structure TradeWithDerived where
  trade : Trade
  gross_pnl : Option F
  net_pnl : Option F
  pnl_per_share : Option F
  risk_per_share : Option F
  r_multiple : Option F
  result : Option TradeResult
deriving DecidableEq

/-! ### P&L derivation (src/src-tauri/src/calculations/pnl.rs) -/

/-- Gross PnL: long `(exit − entry) × qty × multiplier`, short the negation. -/
def calculate_gross_pnl (direction : Direction) (entry_price exit_price quantity multiplier : F) : F :=
  match direction with
  | .Long => (exit_price - entry_price) * quantity * multiplier
  | .Short => (entry_price - exit_price) * quantity * multiplier

/-- Net PnL: gross PnL minus fees. -/
def calculate_net_pnl (gross_pnl fees : F) : F :=
  gross_pnl - fees

/-- PnL per share: long `exit − entry`, short `entry − exit`. -/
def calculate_pnl_per_share (direction : Direction) (entry_price exit_price : F) : F :=
  match direction with
  | .Long => exit_price - entry_price
  | .Short => entry_price - exit_price

/-- Risk per share: `|entry − stop|`, `none` when that is not positive. -/
def calculate_risk_per_share (entry_price stop_loss_price : F) : Option F :=
  let risk := |entry_price - stop_loss_price|
  if risk > 0 then some risk else none

/-- R-multiple: `pnl_per_share / risk_per_share`, `none` when the risk is
absent or not positive. -/
def calculate_r_multiple (pnl_per_share : F) (risk_per_share : Option F) : Option F :=
  ((risk_per_share).filter (fun r => r > 0)).map (fun r => pnl_per_share / r)

/-- Classification of a trade result from its net PnL. -/
def classify_result (net_pnl : F) : TradeResult :=
  if net_pnl > 0 then .Win
  else if net_pnl < 0 then .Loss
  else .Breakeven

/-- All derived fields for a trade (`calculate_derived_fields`). -/
def calculate_derived_fields (trade : Trade) : DerivedFields :=
  let multiplier := trade.asset_class.multiplier
  let gnp : Option F × Option F × Option F :=
    match trade.exit_price, trade.quantity with
    | some exit, some qty =>
        let gross := calculate_gross_pnl trade.direction trade.entry_price exit qty multiplier
        let net := calculate_net_pnl gross trade.fees
        let pps := calculate_pnl_per_share trade.direction trade.entry_price exit
        (some gross, some net, some pps)
    | _, _ => (none, none, none)
  let gross_pnl := gnp.1
  let net_pnl := gnp.2.1
  let pnl_per_share := gnp.2.2
  let risk_per_share := trade.stop_loss_price.bind
    (fun sl => calculate_risk_per_share trade.entry_price sl)
  let r_multiple := pnl_per_share.bind
    (fun pps => calculate_r_multiple pps risk_per_share)
  let result := net_pnl.map classify_result
  { gross_pnl := gross_pnl
    net_pnl := net_pnl
    pnl_per_share := pnl_per_share
    risk_per_share := risk_per_share
    r_multiple := r_multiple
    result := result }

/-! ### Portfolio analytics (src/src-tauri/src/calculations/aggregations.rs)

`HashMap<NaiveDate, _>` accumulators are modelled as association lists in
key-insertion order with the `entry().or_insert()` update semantics.  The
outputs of `calculate_daily_metrics` and `calculate_equity_curve` do not
depend on the map's iteration order because the keys are distinct dates and
the results are (stably) sorted by those keys, so iterating in key-insertion
order is a faithful model.  `i32` counters are modelled as `Nat`: they are
only ever incremented from zero. -/

/-- Daily performance aggregation (`DailyPerformance`). -/
structure DailyPerformance where
  date : Date
  realized_net_pnl : F
  trade_count : Nat
  win_count : Nat
  loss_count : Nat
deriving DecidableEq

/-- Period metrics for dashboard analytics (`PeriodMetrics`). -/
structure PeriodMetrics where
  total_net_pnl : F
  trade_count : Nat
  win_count : Nat
  loss_count : Nat
  breakeven_count : Nat
  win_rate : Option F
  avg_win : Option F
  avg_loss : Option F
  profit_factor : Option F64Val
  expectancy : Option F
  max_drawdown : F
  max_win_streak : Nat
  max_loss_streak : Nat
deriving DecidableEq

/-- `PeriodMetrics::default()`. -/
def PeriodMetrics.defaultVal : PeriodMetrics :=
  { total_net_pnl := 0
    trade_count := 0
    win_count := 0
    loss_count := 0
    breakeven_count := 0
    win_rate := none
    avg_win := none
    avg_loss := none
    profit_factor := none
    expectancy := none
    max_drawdown := 0
    max_win_streak := 0
    max_loss_streak := 0 }

/-- Point on the equity curve (`EquityPoint`). -/
structure EquityPoint where
  date : Date
  cumulative_pnl : F
  drawdown : F
deriving DecidableEq

/-- Key relation of `sort_by_key(|t| t.trade.trade_date)` on trades. -/
def twdLe (a b : TradeWithDerived) : Prop :=
  Date.le a.trade.trade_date b.trade.trade_date

instance (a b : TradeWithDerived) : Decidable (twdLe a b) := by
  unfold twdLe; infer_instance

instance : IsTotal TradeWithDerived twdLe :=
  ⟨fun a b => total_of Date.le a.trade.trade_date b.trade.trade_date⟩

instance : IsTrans TradeWithDerived twdLe :=
  ⟨fun _ _ _ h₁ h₂ => Trans.trans (r := Date.le) h₁ h₂⟩

/-- Key relation of `sort_by_key(|d| d.date)` on daily rows. -/
def dpLe (a b : DailyPerformance) : Prop := Date.le a.date b.date

instance (a b : DailyPerformance) : Decidable (dpLe a b) := by
  unfold dpLe; infer_instance

instance : IsTotal DailyPerformance dpLe :=
  ⟨fun a b => total_of Date.le a.date b.date⟩

instance : IsTrans DailyPerformance dpLe :=
  ⟨fun _ _ _ h₁ h₂ => Trans.trans (r := Date.le) h₁ h₂⟩

/-- Per-trade mutation of one day's accumulated row inside
`calculate_daily_metrics`: add the net P&L, bump the trade count, and bump
the win or loss count per the already-computed classification. -/
def dpUpdate (e : DailyPerformance) (net : F) (res : Option TradeResult) :
    DailyPerformance :=
  let e := { e with realized_net_pnl := e.realized_net_pnl + net
                    trade_count := e.trade_count + 1 }
  match res with
  | some .Win => { e with win_count := e.win_count + 1 }
  | some .Loss => { e with loss_count := e.loss_count + 1 }
  | _ => e

/-- Fresh daily row (`or_insert_with`). -/
def dpEmpty (d : Date) : DailyPerformance :=
  { date := d, realized_net_pnl := 0, trade_count := 0, win_count := 0
    loss_count := 0 }

/-- `daily_map.entry(date).or_insert_with(..)` followed by the mutation. -/
def dailyEntryUpdate :
    List (Date × DailyPerformance) → Date → F → Option TradeResult →
    List (Date × DailyPerformance)
  | [], d, net, res => [(d, dpUpdate (dpEmpty d) net res)]
  | (k, e) :: rest, d, net, res =>
      if k = d then (k, dpUpdate e net res) :: rest
      else (k, e) :: dailyEntryUpdate rest d net res

/-- One loop iteration of `calculate_daily_metrics`; trades without a net
P&L are skipped. -/
def dailyStep (m : List (Date × DailyPerformance)) (t : TradeWithDerived) :
    List (Date × DailyPerformance) :=
  match t.net_pnl with
  | some net => dailyEntryUpdate m t.trade.trade_date net t.result
  | none => m

/-- The daily map built by the loop of `calculate_daily_metrics`. -/
def dailyMapOf (trades : List TradeWithDerived) :
    List (Date × DailyPerformance) :=
  trades.foldl dailyStep []

/-- Daily performance metrics from a list of trades
(`calculate_daily_metrics`). -/
def calculate_daily_metrics (trades : List TradeWithDerived) :
    List DailyPerformance :=
  List.insertionSort dpLe ((dailyMapOf trades).map Prod.snd)

/-- `daily_pnl.entry(date).or_insert(0.0) += net` of the equity-curve loop. -/
def dailyPnlUpdate : List (Date × F) → Date → F → List (Date × F)
  | [], d, v => [(d, v)]
  | (k, x) :: rest, d, v =>
      if k = d then (k, x + v) :: rest
      else (k, x) :: dailyPnlUpdate rest d v

/-- One bucketing iteration of the equity-curve loop; trades without a net
P&L are skipped. -/
def dailyPnlStep (m : List (Date × F)) (t : TradeWithDerived) :
    List (Date × F) :=
  match t.net_pnl with
  | some net => dailyPnlUpdate m t.trade.trade_date net
  | none => m

/-- Net P&L bucketed by date. -/
def dailyPnlMap (trades : List TradeWithDerived) : List (Date × F) :=
  trades.foldl dailyPnlStep []

/-- Lookup `daily_pnl[&date]`; the scan only queries present keys, so the
zero default of the total model is never observable. -/
def lookupDaily (m : List (Date × F)) (d : Date) : F :=
  match m.find? (fun kv => decide (kv.1 = d)) with
  | some kv => kv.2
  | none => 0

/-- Forward scan of the equity-curve loop: accumulate cumulative P&L and the
running peak (starting at 0), emitting `drawdown = peak − cumulative`. -/
def equityScan (m : List (Date × F)) :
    List Date → F → F → List EquityPoint
  | [], _, _ => []
  | d :: ds, cum, peak =>
      let cum' := cum + lookupDaily m d
      let peak' := max peak cum'
      { date := d, cumulative_pnl := cum', drawdown := peak' - cum' } ::
        equityScan m ds cum' peak'

/-- Equity curve from a list of trades, aggregated by day
(`calculate_equity_curve`). -/
def calculate_equity_curve (trades : List TradeWithDerived) :
    List EquityPoint :=
  let m := dailyPnlMap trades
  let dates := List.insertionSort Date.le (m.map Prod.fst)
  equityScan m dates 0 0

/-- Accumulator of the main loop of `calculate_period_metrics`. -/
structure PMAcc where
  total_net : F
  win : Nat
  loss : Nat
  brk : Nat
  total_wins : F
  total_losses : F
  cw : Nat
  cl : Nat
  mw : Nat
  ml : Nat
deriving DecidableEq

/-- Initial accumulator (all zeros). -/
def pmInit : PMAcc :=
  { total_net := 0, win := 0, loss := 0, brk := 0, total_wins := 0
    total_losses := 0, cw := 0, cl := 0, mw := 0, ml := 0 }

/-- One iteration of the main loop of `calculate_period_metrics`. -/
def pmStep (s : PMAcc) (t : TradeWithDerived) : PMAcc :=
  match t.net_pnl with
  | none => s
  | some net =>
      let s := { s with total_net := s.total_net + net }
      match t.result with
      | some .Win =>
          { s with win := s.win + 1, total_wins := s.total_wins + net
                   cw := s.cw + 1, cl := 0, mw := max s.mw (s.cw + 1) }
      | some .Loss =>
          { s with loss := s.loss + 1, total_losses := s.total_losses + net
                   cl := s.cl + 1, cw := 0, ml := max s.ml (s.cl + 1) }
      | some .Breakeven =>
          { s with brk := s.brk + 1, cw := 0, cl := 0 }
      | none => s

/-- Stable sort of trades ascending by trade date (`sort_by_key`). -/
def sortTradesByDate (trades : List TradeWithDerived) :
    List TradeWithDerived :=
  List.insertionSort twdLe trades

/-- Period metrics from a list of trades (`calculate_period_metrics`). -/
def calculate_period_metrics (trades : List TradeWithDerived) :
    PeriodMetrics :=
  if trades = [] then PeriodMetrics.defaultVal
  else
    let sorted := sortTradesByDate trades
    let s := sorted.foldl pmStep pmInit
    let decisive := s.win + s.loss
    let win_rate : Option F :=
      if decisive > 0 then some ((s.win : F) / (decisive : F)) else none
    let avg_win : Option F :=
      if s.win > 0 then some (s.total_wins / (s.win : F)) else none
    let avg_loss : Option F :=
      if s.loss > 0 then some (s.total_losses / (s.loss : F)) else none
    let profit_factor : Option F64Val :=
      if s.total_losses < 0 then some (.finite (s.total_wins / |s.total_losses|))
      else if s.total_wins > 0 then some .inf
      else none
    let expectancy : Option F :=
      match win_rate, avg_win, avg_loss with
      | some wr, some aw, some al => some (wr * aw + (1 - wr) * al)
      | _, _, _ => none
    let curve := calculate_equity_curve sorted
    let max_drawdown := (curve.map (·.drawdown)).foldl max 0
    { total_net_pnl := s.total_net
      trade_count := s.win + s.loss + s.brk
      win_count := s.win
      loss_count := s.loss
      breakeven_count := s.brk
      win_rate := win_rate
      avg_win := avg_win
      avg_loss := avg_loss
      profit_factor := profit_factor
      expectancy := expectancy
      max_drawdown := max_drawdown
      max_win_streak := s.mw
      max_loss_streak := s.ml }

/-! ### Spec-side vocabulary for the analytics claims -/

/-- A trade that carries a resolved net P&L. -/
def hasNet (t : TradeWithDerived) : Bool := t.net_pnl.isSome

/-- A realized winning trade. -/
def isWinT (t : TradeWithDerived) : Bool :=
  t.net_pnl.isSome && decide (t.result = some TradeResult.Win)

/-- A realized losing trade. -/
def isLossT (t : TradeWithDerived) : Bool :=
  t.net_pnl.isSome && decide (t.result = some TradeResult.Loss)

/-- A realized breakeven trade. -/
def isBreakevenT (t : TradeWithDerived) : Bool :=
  t.net_pnl.isSome && decide (t.result = some TradeResult.Breakeven)

/-- Net P&L of a trade known to carry one. -/
def netValOf (t : TradeWithDerived) : F := t.net_pnl.getD 0

/-- Number of wins in a trade collection. -/
def winCountOf (trades : List TradeWithDerived) : Nat :=
  (trades.filter isWinT).length

/-- Number of losses in a trade collection. -/
def lossCountOf (trades : List TradeWithDerived) : Nat :=
  (trades.filter isLossT).length

/-- Sum of winning net P&Ls. -/
def sumWinsOf (trades : List TradeWithDerived) : F :=
  ((trades.filter isWinT).map netValOf).sum

/-- Sum of losing net P&Ls (a non-positive quantity on consistent inputs). -/
def sumLossesOf (trades : List TradeWithDerived) : F :=
  ((trades.filter isLossT).map netValOf).sum

/-- Number of realized breakeven trades. -/
def breakevenCountOf (trades : List TradeWithDerived) : Nat :=
  (trades.filter isBreakevenT).length

/-- Sum of all realized net P&Ls. -/
def netSumOf (trades : List TradeWithDerived) : F :=
  ((trades.filter hasNet).map netValOf).sum

/-- Input contract of the analytics layer: the carried classification is the
one computed by the derivation step from the carried net P&L. -/
def resultConsistent (trades : List TradeWithDerived) : Prop :=
  ∀ t ∈ trades, t.result = t.net_pnl.map classify_result

/-- Streak accumulator of the claim's description: running win/loss streaks
and the maxima ever reached. -/
structure StreakAcc where
  cw : Nat
  cl : Nat
  mw : Nat
  ml : Nat
deriving DecidableEq

/-- Streak transition exactly as the claim words it: a win extends the win
streak and resets the loss streak, a loss the converse, and a breakeven
resets both without extending either (trades without realized P&L do not
participate). -/
def streakStep (s : StreakAcc) (t : TradeWithDerived) : StreakAcc :=
  match t.net_pnl with
  | none => s
  | some _ =>
      match t.result with
      | some .Win => ⟨s.cw + 1, 0, max s.mw (s.cw + 1), s.ml⟩
      | some .Loss => ⟨0, s.cl + 1, s.mw, max s.ml (s.cl + 1)⟩
      | some .Breakeven => ⟨0, 0, s.mw, s.ml⟩
      | none => s

/-- Maximum streaks over a date-ordered trade sequence, per the claim. -/
def streaksOf (trades : List TradeWithDerived) : StreakAcc :=
  trades.foldl streakStep ⟨0, 0, 0, 0⟩

/-- The peak as claim C4 words it: the maximum of `cumulative[0..=i]`
(without the implicit initial 0 the code actually uses). -/
def claimPeak (l : List F) : F := l.foldl max (l.headD 0)

/-- Claim C4's drawdown formula, as stated, for a trade collection:
`drawdown[i] = peak(i) − cumulative[i]` with `peak(i) = max(cumulative[0..=i])`. -/
def claimC4DrawdownPred (trades : List TradeWithDerived) : Prop :=
  ∀ i p, (calculate_equity_curve trades)[i]? = some p →
    p.drawdown =
      claimPeak (((calculate_equity_curve trades).map
          (·.cumulative_pnl)).take (i + 1)) - p.cumulative_pnl

/-! ### Concrete sample data for witnesses and counterexamples -/

/-- Winning long stock trade: entry 150, exit 155, 100 shares, stop 145,
fees 10 (the scenario of the service-layer tests). -/
def c2Trade : Trade :=
  { trade_date := ⟨2024, 1, 15⟩
    direction := .Long
    quantity := some 100
    entry_price := 150
    exit_price := some 155
    stop_loss_price := some 145
    fees := 10
    asset_class := .Stock
    status := .Closed }

/-- Closed trade record carrying a given date, net P&L and classification
(entry/exit prices are placeholders: analytics reads only the derived
fields and the date). -/
def sampleTWD (dt : Date) (net : Option F) (res : Option TradeResult) :
    TradeWithDerived :=
  { trade :=
      { trade_date := dt
        direction := .Long
        quantity := some 100
        entry_price := 100
        exit_price := some 101
        stop_loss_price := none
        fees := 0
        asset_class := .Stock
        status := .Closed }
    gross_pnl := net
    net_pnl := net
    pnl_per_share := none
    risk_per_share := none
    r_multiple := none
    result := res }

/-- Single losing realized trade (net −100). -/
def c4LossTrade : TradeWithDerived :=
  sampleTWD ⟨2024, 1, 2⟩ (some (-100)) (some TradeResult.Loss)

/-- Two realized trades: +1000 then −800 on consecutive days. -/
def c4WitnessTrades : List TradeWithDerived :=
  [sampleTWD ⟨2024, 1, 1⟩ (some 1000) (some TradeResult.Win),
   sampleTWD ⟨2024, 1, 2⟩ (some (-800)) (some TradeResult.Loss)]

/-- One win (+200) followed by one loss (−100) on consecutive days. -/
def c3WitnessTrades : List TradeWithDerived :=
  [sampleTWD ⟨2024, 1, 1⟩ (some 200) (some TradeResult.Win),
   sampleTWD ⟨2024, 1, 2⟩ (some (-100)) (some TradeResult.Loss)]

/-- Results W,W,W,L,L in date order. -/
def c8ScenarioA : List TradeWithDerived :=
  [sampleTWD ⟨2024, 1, 1⟩ (some 1) (some TradeResult.Win),
   sampleTWD ⟨2024, 1, 2⟩ (some 1) (some TradeResult.Win),
   sampleTWD ⟨2024, 1, 3⟩ (some 1) (some TradeResult.Win),
   sampleTWD ⟨2024, 1, 4⟩ (some (-1)) (some TradeResult.Loss),
   sampleTWD ⟨2024, 1, 5⟩ (some (-1)) (some TradeResult.Loss)]

/-- Results W,W,W,B,L,L in date order: a breakeven inserted between the
third win and the first loss. -/
def c8ScenarioB : List TradeWithDerived :=
  [sampleTWD ⟨2024, 1, 1⟩ (some 1) (some TradeResult.Win),
   sampleTWD ⟨2024, 1, 2⟩ (some 1) (some TradeResult.Win),
   sampleTWD ⟨2024, 1, 3⟩ (some 1) (some TradeResult.Win),
   sampleTWD ⟨2024, 1, 4⟩ (some 0) (some TradeResult.Breakeven),
   sampleTWD ⟨2024, 1, 5⟩ (some (-1)) (some TradeResult.Loss),
   sampleTWD ⟨2024, 1, 6⟩ (some (-1)) (some TradeResult.Loss)]

/-! ### Character/string utilities: models of the Rust `str` operations the
parser uses.  Strings are `List Char`; byte-level UTF-8 details are below
the granularity of this model. -/

/-- Whitespace for `str::trim` / `char::is_whitespace`, restricted to the
ASCII whitespace that can occur in the wire format. -/
def wsChar (c : Char) : Bool :=
  c == ' ' || c == '\t' || c == '\n' || c == '\r'

/-- Model of `str::trim`. -/
def trimChars (s : List Char) : List Char :=
  ((s.dropWhile wsChar).reverse.dropWhile wsChar).reverse

/-- Model of `str::split(sep)`: the list of fields, empty fields included. -/
def splitOnChar (sep : Char) : List Char → List (List Char)
  | [] => [[]]
  | c :: rest =>
      match splitOnChar sep rest with
      | [] => [[]]
      | cur :: done =>
          if c = sep then [] :: cur :: done else (c :: cur) :: done

/-- Strip one trailing carriage return (the `\r\n` handling of
`str::lines`). -/
def stripCR (l : List Char) : List Char :=
  if l.getLast? = some '\r' then l.dropLast else l

/-- Piece-list post-processing of `str::lines`: every piece that was
followed by a newline loses one trailing `\r`; a final empty piece (from a
trailing newline) is dropped. -/
def rustLinesGo : List (List Char) → List (List Char)
  | [] => []
  | [last] => if last = [] then [] else [last]
  | piece :: rest => stripCR piece :: rustLinesGo rest

/-- Model of `str::lines`. -/
def rustLines (s : List Char) : List (List Char) :=
  if s = [] then [] else rustLinesGo (splitOnChar '\n' s)

/-- Numeric value of a decimal digit character. -/
def digitVal (c : Char) : Nat := c.toNat - '0'.toNat

/-- Value of a digit string (most significant first). -/
def digitsVal (s : List Char) : Nat :=
  s.foldl (fun a c => a * 10 + digitVal c) 0

/-- Parse a non-empty all-digit string. -/
def parseNatRaw (s : List Char) : Option Nat :=
  if s ≠ [] ∧ s.all (·.isDigit) then some (digitsVal s) else none

/-- Model of `str::parse::<u32>` (optional `+` sign, digits; the fields it
is applied to are at most two digits, so overflow cannot occur). -/
def parseU32 : List Char → Option Nat
  | '+' :: r => parseNatRaw r
  | s => parseNatRaw s

/-- Model of `str::parse::<i32>` (optional sign, digits; the fields it is
applied to are at most four digits, so overflow cannot occur). -/
def parseI32 : List Char → Option Int
  | '+' :: r => (parseNatRaw r).map Int.ofNat
  | '-' :: r => (parseNatRaw r).map (fun n => -(n : Int))
  | s => (parseNatRaw s).map Int.ofNat

/-- Mantissa of a decimal literal: `Digit+ | Digit+ '.' Digit* | '.' Digit+`. -/
def parseMantissa (s : List Char) : Option F :=
  let ip := s.takeWhile (·.isDigit)
  let rest := s.drop ip.length
  match rest with
  | [] => if ip = [] then none else some ((digitsVal ip : F))
  | '.' :: fp =>
      if fp.all (·.isDigit) ∧ (ip ≠ [] ∨ fp ≠ []) then
        some ((digitsVal (ip ++ fp) : F) / (10 : F) ^ fp.length)
      else none
  | _ => none

/-- Decimal literal with optional exponent (split at the first `e`/`E`). -/
def parseF64Core (s : List Char) : Option F :=
  let mant := s.takeWhile (fun c => c != 'e' && c != 'E')
  let rest := s.drop mant.length
  match rest with
  | [] => parseMantissa mant
  | _ :: ex =>
      (parseMantissa mant).bind
        (fun q => (parseI32 ex).map (fun e => q * (10 : F) ^ e))

/-- Model of `str::parse::<f64>` on the decimal sublanguage: optional sign,
mantissa, optional exponent.  The IEEE special literals (`inf`, `NaN`) are
outside the exact-rational model; the wire format never carries them. -/
def parseF64 : List Char → Option F
  | '+' :: r => parseF64Core r
  | '-' :: r => (parseF64Core r).map (fun x => -x)
  | s => parseF64Core s

/-! ### TLG log parser (src/src-tauri/src/parsers/tlg_parser.rs) -/

/-- TLG trade action types (`TlgAction`). -/
inductive TlgAction where
  | BuyToOpen
  | SellToClose
  | SellToOpen
  | BuyToClose
deriving DecidableEq

/-- `TlgAction::from_str`: case-insensitive match of the four literals. -/
def TlgAction.fromChars (s : List Char) : Option TlgAction :=
  let u := s.map Char.toUpper
  if u = "BUYTOOPEN".toList then some .BuyToOpen
  else if u = "SELLTOCLOSE".toList then some .SellToClose
  else if u = "SELLTOOPEN".toList then some .SellToOpen
  else if u = "BUYTOCLOSE".toList then some .BuyToClose
  else none

/-- True if this action opens a position. -/
def TlgAction.is_opening : TlgAction → Bool
  | .BuyToOpen | .SellToOpen => true
  | _ => false

/-- True if this action closes a position. -/
def TlgAction.is_closing : TlgAction → Bool
  | .SellToClose | .BuyToClose => true
  | _ => false

/-- Asset type in a TLG file. -/
inductive TlgAssetType where
  | Stock
  | Option
deriving DecidableEq

/-- Option type (call or put). -/
inductive OptionType where
  | Call
  | Put
deriving DecidableEq

/-- Option contract details parsed from an OCC symbol (`OptionDetails`). -/
structure OptionDetails where
  underlying : List Char
  expiration_date : Date
  option_type : OptionType
  strike_price : F
deriving DecidableEq

/-- A parsed execution from a TLG file line (`TlgExecution`). -/
structure TlgExecution where
  broker_execution_id : List Char
  symbol : List Char
  name : List Char
  exchange : List Char
  action : TlgAction
  execution_date : Date
  execution_time : List Char
  currency : List Char
  quantity : F
  multiplier : F
  price : F
  total : F
  fees : F
  fx_rate : Option F
  asset_type : TlgAssetType
  option_details : Option OptionDetails
deriving DecidableEq

/-- Absolute quantity (always non-negative). -/
def TlgExecution.abs_quantity (e : TlgExecution) : F := |e.quantity|

/-- Absolute fees (TLG stores them as negative). -/
def TlgExecution.abs_fees (e : TlgExecution) : F := |e.fees|

/-- Underlying symbol: the decoded underlying for options, else the symbol. -/
def TlgExecution.underlying_symbol (e : TlgExecution) : List Char :=
  match e.option_details with
  | some details => details.underlying
  | none => e.symbol

/-- Parse error with line information (`TlgParseError`). -/
structure TlgParseError where
  line_number : Nat
  line_content : List Char
  error : String
deriving DecidableEq

/-- Result of parsing a TLG file (`TlgParseResult`). -/
structure TlgParseResult where
  executions : List TlgExecution
  errors : List TlgParseError
deriving DecidableEq

/-- Rust `Option::ok_or_else` under `?`: turn a failed sub-parse into an
`Err` with the given message. -/
def okOr {α : Type} (o : Option α) (msg : String) : Except String α :=
  match o with
  | some a => .ok a
  | none => .error msg

/-- Parse a date in `YYYYMMDD` format (`parse_date`). -/
def parse_date (s : List Char) : Except String Date :=
  if s.length ≠ 8 then .error ("Invalid date format: " ++ String.mk s)
  else
    match parseI32 (s.take 4) with
    | none => .error ("Invalid year in date: " ++ String.mk s)
    | some year =>
      match parseU32 ((s.drop 4).take 2) with
      | none => .error ("Invalid month in date: " ++ String.mk s)
      | some month =>
        match parseU32 ((s.drop 6).take 2) with
        | none => .error ("Invalid day in date: " ++ String.mk s)
        | some day =>
          match fromYmd year month day with
          | some d => .ok d
          | none => .error ("Invalid date: " ++ String.mk s)

/-- One step of the scan of `parse_option_symbol`: six ASCII digits at
index `i` immediately followed by `C` or `P` (and the slice in bounds). -/
def isPatternAt (t : List Char) (i : Nat) : Bool :=
  decide (i + 7 ≤ t.length) && ((t.drop i).take 6).all (·.isDigit) &&
    (t[i + 6]? == some 'C' || t[i + 6]? == some 'P')

/-- First index at which the date/type pattern occurs (the source's
`for i in 0..contract.len()` loop with `break`). -/
def findPatternIdx (t : List Char) : Option Nat :=
  (List.range t.length).find? (fun i => isPatternAt t i)

/-- Parse an OCC option symbol to extract contract details
(`parse_option_symbol`).  The source loop stores the found index in
`underlying_end`, which keeps its initial value 0 both when nothing is
found and when the pattern sits at index 0; both take the same error. -/
def parse_option_symbol (contract : List Char) :
    Except String OptionDetails := do
  let contract := trimChars contract
  if contract.length < 15 then
    throw ("Invalid option contract symbol: " ++ String.mk contract ++
      " (too short)")
  let underlying_end := (findPatternIdx contract).getD 0
  if underlying_end = 0 then
    throw ("Could not find date portion in option symbol: " ++
      String.mk contract)
  let date_start := underlying_end
  let underlying := trimChars (contract.take underlying_end)
  if underlying = [] then
    throw ("Empty underlying symbol in option contract: " ++
      String.mk contract)
  let date_str := (contract.drop date_start).take 6
  let year ← okOr (parseI32 (date_str.take 2))
    ("Invalid year in option date: " ++ String.mk date_str)
  let month ← okOr (parseU32 ((date_str.drop 2).take 2))
    ("Invalid month in option date: " ++ String.mk date_str)
  let day ← okOr (parseU32 ((date_str.drop 4).take 2))
    ("Invalid day in option date: " ++ String.mk date_str)
  let full_year := 2000 + year
  let expiration_date ← okOr (fromYmd full_year month day)
    ("Invalid expiration date: " ++ String.mk date_str)
  let type_char := (contract[date_start + 6]?).getD ' '
  let option_type ←
    match type_char with
    | 'C' => pure OptionType.Call
    | 'P' => pure OptionType.Put
    | _ => throw ("Invalid option type: " ++ String.mk [type_char])
  let strike_raw ← okOr (parseF64 (contract.drop (date_start + 7)))
    ("Invalid strike price: " ++ String.mk (contract.drop (date_start + 7)))
  return { underlying := underlying, expiration_date := expiration_date
           option_type := option_type, strike_price := strike_raw / 1000 }

/-- Parse a stock transaction line (`parse_stock_transaction`).  Field 16
(FX rate) is optional: an unparseable value becomes `none` via `.ok()`. -/
def parse_stock_transaction (line : List Char) :
    Except String TlgExecution := do
  let fields := splitOnChar '|' line
  if fields.length < 16 then
    throw ("Invalid stock transaction: expected 16 fields, got " ++
      toString fields.length)
  let action ← okOr (TlgAction.fromChars (fields.getD 5 []))
    ("Unknown action: " ++ String.mk (fields.getD 5 []))
  let execution_date ← parse_date (fields.getD 7 [])
  let quantity ← okOr (parseF64 (fields.getD 10 []))
    ("Invalid quantity: " ++ String.mk (fields.getD 10 []))
  let multiplier ← okOr (parseF64 (fields.getD 11 []))
    ("Invalid multiplier: " ++ String.mk (fields.getD 11 []))
  let price ← okOr (parseF64 (fields.getD 12 []))
    ("Invalid price: " ++ String.mk (fields.getD 12 []))
  let total ← okOr (parseF64 (fields.getD 13 []))
    ("Invalid total: " ++ String.mk (fields.getD 13 []))
  let fees ← okOr (parseF64 (fields.getD 14 []))
    ("Invalid fees: " ++ String.mk (fields.getD 14 []))
  let fx_rate := if 15 < fields.length ∧ fields.getD 15 [] ≠ [] then
    parseF64 (fields.getD 15 []) else none
  return { broker_execution_id := fields.getD 1 []
           symbol := fields.getD 2 []
           name := fields.getD 3 []
           exchange := fields.getD 4 []
           action := action
           execution_date := execution_date
           execution_time := fields.getD 8 []
           currency := fields.getD 9 []
           quantity := quantity
           multiplier := multiplier
           price := price
           total := total
           fees := fees
           fx_rate := fx_rate
           asset_type := TlgAssetType.Stock
           option_details := none }

/-- Parse an option transaction line (`parse_option_transaction`): the same
layout, with field 2 a packed contract symbol that must also decode. -/
def parse_option_transaction (line : List Char) :
    Except String TlgExecution := do
  let fields := splitOnChar '|' line
  if fields.length < 16 then
    throw ("Invalid option transaction: expected 16 fields, got " ++
      toString fields.length)
  let contract_symbol := fields.getD 2 []
  let action ← okOr (TlgAction.fromChars (fields.getD 5 []))
    ("Unknown action: " ++ String.mk (fields.getD 5 []))
  let execution_date ← parse_date (fields.getD 7 [])
  let quantity ← okOr (parseF64 (fields.getD 10 []))
    ("Invalid quantity: " ++ String.mk (fields.getD 10 []))
  let multiplier ← okOr (parseF64 (fields.getD 11 []))
    ("Invalid multiplier: " ++ String.mk (fields.getD 11 []))
  let price ← okOr (parseF64 (fields.getD 12 []))
    ("Invalid price: " ++ String.mk (fields.getD 12 []))
  let total ← okOr (parseF64 (fields.getD 13 []))
    ("Invalid total: " ++ String.mk (fields.getD 13 []))
  let fees ← okOr (parseF64 (fields.getD 14 []))
    ("Invalid fees: " ++ String.mk (fields.getD 14 []))
  let fx_rate := if 15 < fields.length ∧ fields.getD 15 [] ≠ [] then
    parseF64 (fields.getD 15 []) else none
  let option_details ← parse_option_symbol contract_symbol
  return { broker_execution_id := fields.getD 1 []
           symbol := contract_symbol
           name := fields.getD 3 []
           exchange := fields.getD 4 []
           action := action
           execution_date := execution_date
           execution_time := fields.getD 8 []
           currency := fields.getD 9 []
           quantity := quantity
           multiplier := multiplier
           price := price
           total := total
           fees := fees
           fx_rate := fx_rate
           asset_type := TlgAssetType.Option
           option_details := some option_details }

/-- The `STK_TRD|` record tag. -/
def stkTag : List Char := "STK_TRD|".toList

/-- The `OPT_TRD|` record tag. -/
def optTag : List Char := "OPT_TRD|".toList

/-- The line loop of `parse_tlg_file`, carrying the 1-based number of the
first line: trim, skip blanks and unrecognized lines, parse recognized
records, and accumulate executions and errors in line order. -/
def parseLinesFrom (n : Nat) : List (List Char) → TlgParseResult
  | [] => { executions := [], errors := [] }
  | line :: rest =>
      let t := trimChars line
      let r := parseLinesFrom (n + 1) rest
      if t = [] then r
      else if stkTag.isPrefixOf t then
        match parse_stock_transaction t with
        | .ok e => { executions := e :: r.executions, errors := r.errors }
        | .error msg =>
            { executions := r.executions
              errors := { line_number := n, line_content := t, error := msg }
                :: r.errors }
      else if optTag.isPrefixOf t then
        match parse_option_transaction t with
        | .ok e => { executions := e :: r.executions, errors := r.errors }
        | .error msg =>
            { executions := r.executions
              errors := { line_number := n, line_content := t, error := msg }
                :: r.errors }
      else r

/-- Parse an entire TLG file content (`parse_tlg_file`). -/
def parse_tlg_file (content : List Char) : TlgParseResult :=
  parseLinesFrom 1 (rustLines content)

/-- What one iteration of the line loop does with a (trimmed) line:
skipped (`none`), or the outcome of the record parse. -/
def lineClassify (t : List Char) : Option (Except String TlgExecution) :=
  if t = [] then none
  else if stkTag.isPrefixOf t then some (parse_stock_transaction t)
  else if optTag.isPrefixOf t then some (parse_option_transaction t)
  else none

/-- The execution a line contributes, if any. -/
def lineExecOf (l : List Char) : Option TlgExecution :=
  match lineClassify (trimChars l) with
  | some (.ok e) => some e
  | _ => none

/-- The error entry a numbered line contributes, if any. -/
def lineErrOf (p : Nat × List Char) : Option TlgParseError :=
  match lineClassify (trimChars p.2) with
  | some (.error msg) =>
      some { line_number := p.1, line_content := trimChars p.2, error := msg }
  | _ => none

/-! ### Execution aggregator (src/src-tauri/src/services/import_service.rs) -/

/-- An individual execution within a trade (`Execution`). -/
structure Execution where
  execution_type : String
  execution_date : Date
  execution_time : Option (List Char)
  quantity : F
  price : F
  fees : F
  exchange : Option (List Char)
  broker_execution_id : List Char
deriving DecidableEq

/-- An aggregated trade ready for import (`AggregatedTrade`). -/
structure AggregatedTrade where
  key : List Char
  symbol : List Char
  underlying_symbol : List Char
  asset_class : String
  option_type : Option String
  strike_price : Option F
  expiration_date : Option Date
  direction : String
  trade_date : Date
  entries : List Execution
  exits : List Execution
  status : String
  total_quantity : F
  avg_entry_price : F
  avg_exit_price : Option F
  total_fees : F
  net_pnl : Option F
deriving DecidableEq

/-- A default aggregated trade (used only as the `headD` fallback when
reading concrete outputs in theorems). -/
def aggDefault : AggregatedTrade :=
  { key := [], symbol := [], underlying_symbol := [], asset_class := "stock"
    option_type := none, strike_price := none, expiration_date := none
    direction := "long", trade_date := ⟨1970, 1, 1⟩, entries := [], exits := []
    status := "open", total_quantity := 0, avg_entry_price := 0
    avg_exit_price := none, total_fees := 0, net_pnl := none }

/-- `AggregatedTrade::calculate_derived`: recompute quantity, averages,
fees, status and net P&L from the entry and exit executions.  Note the
closed test: `exit_qty >= total_quantity && !exits.is_empty()` — no
epsilon and no requirement that any entry exists. -/
def AggregatedTrade.calculate_derived (a : AggregatedTrade) : AggregatedTrade :=
  let total_quantity := (a.entries.map (·.quantity)).sum
  let total_entry_value := (a.entries.map (fun e => e.quantity * e.price)).sum
  let avg_entry_price :=
    if total_quantity > 0 then total_entry_value / total_quantity else 0
  let total_fees :=
    (a.entries.map (·.fees)).sum + (a.exits.map (·.fees)).sum
  let exit_qty := (a.exits.map (·.quantity)).sum
  if exit_qty ≥ total_quantity ∧ a.exits ≠ [] then
    let total_exit_value := (a.exits.map (fun e => e.quantity * e.price)).sum
    let avg_exit_price := total_exit_value / exit_qty
    let gross_pnl :=
      if a.direction = "long" then
        (avg_exit_price - avg_entry_price) * total_quantity
      else (avg_entry_price - avg_exit_price) * total_quantity
    let multiplier : F := if a.asset_class = "option" then 100 else 1
    let gross_pnl := gross_pnl * multiplier
    { a with total_quantity := total_quantity
             avg_entry_price := avg_entry_price
             total_fees := total_fees
             status := "closed"
             avg_exit_price := some avg_exit_price
             net_pnl := some (gross_pnl - total_fees) }
  else
    { a with total_quantity := total_quantity
             avg_entry_price := avg_entry_price
             total_fees := total_fees
             status := "open"
             avg_exit_price := none
             net_pnl := none }

/-- Position tracker for aggregating executions into trades
(`PositionTracker`). -/
structure PositionTracker where
  symbol : List Char
  underlying_symbol : List Char
  asset_class : TlgAssetType
  option_details : Option OptionDetails
  direction : Option Direction
  entries : List TlgExecution
  exits : List TlgExecution
  open_quantity : F
deriving DecidableEq

/-- `PositionTracker::new`. -/
def PositionTracker.new (symbol underlying : List Char)
    (asset_type : TlgAssetType) (option_details : Option OptionDetails) :
    PositionTracker :=
  { symbol := symbol, underlying_symbol := underlying
    asset_class := asset_type, option_details := option_details
    direction := none, entries := [], exits := [], open_quantity := 0 }

/-- `PositionTracker::add_execution`: opening actions append to entries and
raise the open quantity (fixing the direction on the first one); closing
actions append to exits and lower it. -/
def PositionTracker.add_execution (tr : PositionTracker)
    (exec : TlgExecution) : PositionTracker :=
  let qty := exec.abs_quantity
  if exec.action.is_opening then
    let direction :=
      match tr.direction with
      | none => some (if exec.action = TlgAction.BuyToOpen then Direction.Long
          else Direction.Short)
      | some d => some d
    { tr with direction := direction, entries := tr.entries ++ [exec]
              open_quantity := tr.open_quantity + qty }
  else
    { tr with exits := tr.exits ++ [exec]
              open_quantity := tr.open_quantity - qty }

/-- `PositionTracker::is_closed` (defined in the source but not on the path
that assigns the aggregated trade's status). -/
def PositionTracker.is_closed (tr : PositionTracker) : Bool :=
  decide (tr.open_quantity ≤ 1 / 10000) && !tr.entries.isEmpty &&
    !tr.exits.isEmpty

/-- Zero-padded decimal digits of a natural number. -/
def padLeftZeros (s : List Char) (w : Nat) : List Char :=
  List.replicate (w - s.length) '0' ++ s

/-- The `Display` of `NaiveDate` (`%Y-%m-%d`), restricted to CE years —
the only place it is used is the cosmetic grouping key. -/
def dateDisplay (d : Date) : List Char :=
  padLeftZeros (Nat.toDigits 10 d.y.toNat) 4 ++
    '-' :: (padLeftZeros (Nat.toDigits 10 d.m) 2 ++
      '-' :: padLeftZeros (Nat.toDigits 10 d.d) 2)

/-- `PositionTracker::to_aggregated_trade`: convert the raw executions,
build the bare trade (status "open", zero aggregates) and finish with
`calculate_derived`. -/
def PositionTracker.to_aggregated_trade (tr : PositionTracker) :
    AggregatedTrade :=
  let entries := tr.entries.map (fun e =>
    ({ execution_type := "entry", execution_date := e.execution_date
       execution_time := some e.execution_time, quantity := e.abs_quantity
       price := e.price, fees := e.abs_fees, exchange := some e.exchange
       broker_execution_id := e.broker_execution_id } : Execution))
  let exits := tr.exits.map (fun e =>
    ({ execution_type := "exit", execution_date := e.execution_date
       execution_time := some e.execution_time, quantity := e.abs_quantity
       price := e.price, fees := e.abs_fees, exchange := some e.exchange
       broker_execution_id := e.broker_execution_id } : Execution))
  let trade_date := ((entries.head?.map (·.execution_date)).getD ⟨1970, 1, 1⟩)
  let key := tr.symbol ++ '_' :: dateDisplay trade_date
  let otriple : Option String × Option F × Option Date :=
    match tr.option_details with
    | some details =>
        (some (match details.option_type with
               | .Call => "call"
               | .Put => "put"),
         some details.strike_price, some details.expiration_date)
    | none => (none, none, none)
  let trade : AggregatedTrade :=
    { key := key, symbol := tr.symbol
      underlying_symbol := tr.underlying_symbol
      asset_class := match tr.asset_class with
        | .Stock => "stock"
        | .Option => "option"
      option_type := otriple.1, strike_price := otriple.2.1
      expiration_date := otriple.2.2
      direction := match tr.direction with
        | some .Long => "long"
        | some .Short => "short"
        | none => "long"
      trade_date := trade_date, entries := entries, exits := exits
      status := "open", total_quantity := 0, avg_entry_price := 0
      avg_exit_price := none, total_fees := 0, net_pnl := none }
  trade.calculate_derived

/-- Lexicographic order on character lists (Rust `String` ordering on the
ASCII data of the wire format). -/
def charListLe : List Char → List Char → Bool
  | [], _ => true
  | _ :: _, [] => false
  | a :: as, b :: bs =>
      if a < b then true else if b < a then false else charListLe as bs

/-- Comparator of the execution pre-sort: by date, then by time string. -/
def execLe (a b : TlgExecution) : Prop :=
  Date.lt a.execution_date b.execution_date ∨
    (a.execution_date = b.execution_date ∧
      charListLe a.execution_time b.execution_time = true)

instance (a b : TlgExecution) : Decidable (execLe a b) := by
  unfold execLe; infer_instance

/-- The stable `sort_by` of executions by (date, time). -/
def sortExecutions (l : List TlgExecution) : List TlgExecution :=
  List.insertionSort execLe l

/-- `trackers.entry(symbol).or_insert_with(PositionTracker::new)` followed
by `add_execution`, on the association-list model of the `HashMap`. -/
def addExecToTrackers :
    List (List Char × PositionTracker) → TlgExecution →
    List (List Char × PositionTracker)
  | [], e =>
      [(e.symbol, (PositionTracker.new e.symbol e.underlying_symbol
        e.asset_type e.option_details).add_execution e)]
  | (k, tr) :: rest, e =>
      if k = e.symbol then (k, tr.add_execution e) :: rest
      else (k, tr) :: addExecToTrackers rest e

/-- Group the (pre-sorted) executions by raw symbol. -/
def buildTrackers (execs : List TlgExecution) :
    List (List Char × PositionTracker) :=
  execs.foldl addExecToTrackers []

/-- Comparator of the final `sort_by(trade_date)` on aggregated trades. -/
def aggLe (a b : AggregatedTrade) : Prop := Date.le a.trade_date b.trade_date

instance (a b : AggregatedTrade) : Decidable (aggLe a b) := by
  unfold aggLe; infer_instance

/-- Convert the trackers (in the given iteration order), split closed from
open, and stably sort each by trade date. -/
def aggOutputs (trackers : List PositionTracker) :
    List AggregatedTrade × List AggregatedTrade :=
  let trades := trackers.map PositionTracker.to_aggregated_trade
  let closed_trades := trades.filter (fun t => t.status == "closed")
  let open_positions := trades.filter (fun t => !(t.status == "closed"))
  (List.insertionSort aggLe closed_trades,
   List.insertionSort aggLe open_positions)

/-- Association-list lookup of a tracker by symbol. -/
def lookupTracker (m : List (List Char × PositionTracker))
    (k : List Char) : Option PositionTracker :=
  (m.find? (fun kv => decide (kv.1 = k))).map Prod.snd

/-- `ImportService::parse_and_aggregate`, parameterized by the iteration
order of the `HashMap<String, PositionTracker>` — Rust's `HashMap` seeds
its hash per instance, so the `for (_, tracker) in trackers` loop may visit
the buckets in any order of the keys on different runs. -/
def parse_and_aggregate_with_order (content : List Char)
    (keyOrder : List (List Char)) :
    (List AggregatedTrade × List AggregatedTrade) × List TlgParseError :=
  let r := parse_tlg_file content
  let sorted_executions := sortExecutions r.executions
  let trackers := buildTrackers sorted_executions
  let ordered := keyOrder.filterMap (fun k => lookupTracker trackers k)
  (aggOutputs ordered, r.errors)

/-- The tracker keys in insertion order (one realizable iteration order). -/
def trackerKeys (content : List Char) : List (List Char) :=
  (buildTrackers (sortExecutions (parse_tlg_file content).executions)).map
    Prod.fst

/-- `ImportService::parse_and_aggregate` with the insertion iteration
order. -/
def parse_and_aggregate (content : List Char) :
    (List AggregatedTrade × List AggregatedTrade) × List TlgParseError :=
  parse_and_aggregate_with_order content (trackerKeys content)

/-! ### Trade service (src/src-tauri/src/services/trade_service.rs) -/

/-- Exit execution for partial exits (`ExitExecution`); the cosmetic `id`
field is omitted (nothing reads it). -/
structure ExitExecution where
  exit_date : Date
  exit_time : Option (List Char)
  quantity : F
  price : F
  fees : Option F
deriving DecidableEq

/-- Input for creating a new trade (`CreateTradeInput`), restricted to the
fields the validation and exit-aggregation logic reads. -/
structure CreateTradeInput where
  trade_date : Date
  direction : Direction
  quantity : Option F
  entry_price : F
  exit_price : Option F
  stop_loss_price : Option F
  entry_time : Option (List Char)
  exit_time : Option (List Char)
  fees : Option F
  status : Option Status
  exits : Option (List ExitExecution)
deriving DecidableEq

/-- The repeated `if let Some(x) = v { if x <= 0 { return Err(msg) } }`
validation blocks. -/
def checkPos (v : Option F) (msg : String) : Except String Unit :=
  match v with
  | some x => if x ≤ 0 then .error msg else .ok ()
  | none => .ok ()

/-- The `if let Some(f) = v { if f < 0 { return Err(msg) } }` fee check. -/
def checkNonnegFee (v : Option F) (msg : String) : Except String Unit :=
  match v with
  | some x => if x < 0 then .error msg else .ok ()
  | none => .ok ()

/-- The per-exit validation loop (1-based ordinals in the messages). -/
def validateExitsFrom (i : Nat) : List ExitExecution → Except String Unit
  | [] => .ok ()
  | e :: rest =>
      if e.quantity ≤ 0 then
        .error ("Exit " ++ toString i ++ " quantity must be greater than 0")
      else if e.price ≤ 0 then
        .error ("Exit " ++ toString i ++ " price must be greater than 0")
      else
        match e.fees with
        | some f =>
            if f < 0 then
              .error ("Exit " ++ toString i ++ " fees cannot be negative")
            else validateExitsFrom (i + 1) rest
        | none => validateExitsFrom (i + 1) rest

/-- `TradeService::validate_input`. -/
def validate_input (input : CreateTradeInput) : Except String Unit := do
  if input.entry_price ≤ 0 then
    throw "Entry price must be greater than 0"
  checkPos input.quantity "Quantity must be greater than 0"
  checkPos input.exit_price "Exit price must be greater than 0"
  checkPos input.stop_loss_price "Stop loss price must be greater than 0"
  checkNonnegFee input.fees "Fees cannot be negative"
  match input.exits with
  | some exits => validateExitsFrom 1 exits
  | none => pure ()

/-- `Iterator::max` over the present exit-time strings (Rust `max` keeps
the last of equal maxima). -/
def maxTimes (l : List (List Char)) : Option (List Char) :=
  l.foldl (fun acc t =>
    match acc with
    | none => some t
    | some m => some (if charListLe m t then t else m)) none

/-- `TradeService::process_exits`: aggregated exit price, latest exit time,
summed exit fees, and the computed status.  (The numeric values inside the
quantity-exceeded message are elided; callers only match on `Err`.) -/
def process_exits (input : CreateTradeInput) :
    Except String (Option F × Option (List Char) × Option F × Option Status) :=
  match input.exits with
  | none => .ok (none, none, none, none)
  | some exits =>
      if exits = [] then .ok (none, none, none, none)
      else
        let entry_qty := input.quantity.getD 0
        let total_exit_qty := (exits.map (·.quantity)).sum
        if entry_qty > 0 ∧ total_exit_qty > entry_qty then
          .error "Total exit quantity cannot exceed entry quantity"
        else
          let weighted_sum := (exits.map (fun e => e.price * e.quantity)).sum
          let avg_exit_price :=
            if total_exit_qty > 0 then weighted_sum / total_exit_qty else 0
          let latest_exit_time := maxTimes (exits.filterMap (·.exit_time))
          let total_exit_fees := (exits.filterMap (·.fees)).sum
          let status :=
            if entry_qty > 0 ∧ |total_exit_qty - entry_qty| < 1 / 10000 then
              some Status.Closed
            else if total_exit_qty > 0 ∧ total_exit_qty < entry_qty then
              some Status.Open
            else none
          .ok (some avg_exit_price, latest_exit_time,
            if total_exit_fees > 0 then some total_exit_fees else none, status)

/-- The pure prefix of `TradeService::create_trade`: validate, aggregate
the exits, and assemble the processed input that is persisted (the
database and instrument lookups are external collaborators). -/
def create_trade_processed (input : CreateTradeInput) :
    Except String CreateTradeInput := do
  validate_input input
  let r ← process_exits input
  let processed := input
  let processed :=
    match r.1 with
    | some p => { processed with exit_price := some p }
    | none => processed
  let processed :=
    match r.2.1 with
    | some tm => { processed with exit_time := some tm }
    | none => processed
  let processed :=
    match r.2.2.1 with
    | some ef => { processed with fees := some (processed.fees.getD 0 + ef) }
    | none => processed
  let processed :=
    match r.2.2.2 with
    | some st => { processed with status := some st }
    | none => processed
  return processed

/-! ### Spec-side vocabulary for the parser/aggregator claims -/

/-- Total entered quantity of an aggregated trade. -/
def sumEntryQty (t : AggregatedTrade) : F := (t.entries.map (·.quantity)).sum

/-- Total exited quantity of an aggregated trade. -/
def sumExitQty (t : AggregatedTrade) : F := (t.exits.map (·.quantity)).sum

/-- Claim C1's closed-status rule for one aggregated trade: closed iff the
exited quantity equals the entered quantity within 1e-4 and at least one
entry and one exit exist. -/
def claimC1Pred (t : AggregatedTrade) : Prop :=
  t.status = "closed" ↔
    (|sumExitQty t - sumEntryQty t| ≤ 1 / 10000 ∧
      t.entries ≠ [] ∧ t.exits ≠ [])

/-- Claim C5's field-count conjunct, as stated: a recognized stock record
whose field count differs from 16 yields a parse error for its line. -/
def claimC5FieldCountPred : Prop :=
  ∀ (content : List Char) (i : Nat) (l : List Char),
    (rustLines content)[i]? = some l →
    stkTag.isPrefixOf (trimChars l) = true →
    (splitOnChar '|' (trimChars l)).length ≠ 16 →
    ∃ e ∈ (parse_tlg_file content).errors, e.line_number = i + 1

/-- The option-symbol decode exactly as claim C6 words it: find the first
digit-run/type index, take the trimmed text before it as the underlying
(failing when empty), map the two-digit year to 2000+YY, read the type
character, and parse the remainder as a number divided by 1000 — with no
other failure condition. -/
def specDecodeClaim (s : List Char) : Option OptionDetails :=
  let t := trimChars s
  match findPatternIdx t with
  | none => none
  | some i =>
      let underlying := trimChars (t.take i)
      if underlying = [] then none
      else
        let ds := (t.drop i).take 6
        match fromYmd (2000 + (digitsVal (ds.take 2) : Int))
            (digitsVal ((ds.drop 2).take 2))
            (digitsVal ((ds.drop 4).take 2)) with
        | none => none
        | some expiry =>
            match parseF64 (t.drop (i + 7)) with
            | none => none
            | some raw =>
                some { underlying := underlying, expiration_date := expiry
                       option_type := if t[i + 6]? = some 'C' then .Call
                         else .Put
                       strike_price := raw / 1000 }

/-- Claim C6 as stated: the decoder succeeds with exactly the components of
the claim's algorithm, and fails exactly when that algorithm fails. -/
def claimC6Pred : Prop :=
  ∀ s d, parse_option_symbol s = .ok d ↔ specDecodeClaim s = some d

/-- The amendment to C6: the same decode preceded by the source's minimum
length guard (fewer than 15 trimmed characters is an error even when the
claim's algorithm would succeed). -/
def specDecodeAmended (s : List Char) : Option OptionDetails :=
  if (trimChars s).length < 15 then none else specDecodeClaim s

/-! ### Concrete wire-format inputs for the counterexamples and witnesses -/

/-- A stream that opens 100 shares and closes 200 on the same symbol: the
exited quantity exceeds the entered quantity by far more than 1e-4. -/
def c1Content : List Char :=
  ("STK_TRD|1|AAPL|APPLE|X|BUYTOOPEN|O|20240101|09:00:00|USD|100|1|10|1000|-1|\n"
    ++ "STK_TRD|2|AAPL|APPLE|X|SELLTOCLOSE|C|20240101|10:00:00|USD|-200|1|11|-2200|-1|").toList

/-- A matched open/close pair on one symbol (a well-formed closed trade). -/
def c1WitnessContent : List Char :=
  ("STK_TRD|1|AAPL|APPLE|X|BUYTOOPEN|O|20240101|09:00:00|USD|100|1|10|1000|-1|\n"
    ++ "STK_TRD|2|AAPL|APPLE|X|SELLTOCLOSE|C|20240101|10:00:00|USD|-100|1|11|-1100|-1|").toList

/-- A recognized stock record with 17 fields (one extra) and an
unparseable FX-rate field: the parser accepts it without any error. -/
def c5Content : List Char :=
  "STK_TRD|1|AAPL|APPLE|X|BUYTOOPEN|O|20240101|09:00:00|USD|100|1|10|1000|-1|abc|EXTRA".toList

/-- A malformed stock record (3 fields) followed by a valid one: the file
still yields the valid execution plus exactly one error for line 1. -/
def c5WitnessContent : List Char :=
  ("STK_TRD|1|AAPL\n"
    ++ "STK_TRD|2|AAPL|APPLE|X|BUYTOOPEN|O|20240101|09:00:00|USD|100|1|10|1000|-1|").toList

/-- The single position tracker the aggregation of `c1Content` builds. -/
def c1Tracker : PositionTracker :=
  ((buildTrackers (sortExecutions (parse_tlg_file c1Content).executions)).headD
    ([], PositionTracker.new [] [] .Stock none)).2

/-- The aggregated trade produced from `c1Content`. -/
def c1Trade : AggregatedTrade := PositionTracker.to_aggregated_trade c1Tracker

/-- The single position tracker the aggregation of `c1WitnessContent`
builds. -/
def c1WitnessTracker : PositionTracker :=
  ((buildTrackers (sortExecutions
      (parse_tlg_file c1WitnessContent).executions)).headD
    ([], PositionTracker.new [] [] .Stock none)).2

/-- The aggregated trade produced from `c1WitnessContent`. -/
def c1WitnessTrade : AggregatedTrade :=
  PositionTracker.to_aggregated_trade c1WitnessTracker

/-- A contract symbol shorter than 15 characters on which the claim's
algorithm succeeds (underlying `AB`, expiry 2025-09-05, call, strike
0.005) but the source errors out. -/
def c6Short : List Char := "AB250905C5".toList

/-- What the claim's algorithm decodes `c6Short` to. -/
def c6Details : OptionDetails :=
  { underlying := "AB".toList
    expiration_date := { y := 2025, m := 9, d := 5 }
    option_type := .Call
    strike_price := 5 / 1000 }

/-- A standard-length OCC contract symbol. -/
def c6WitnessSym : List Char := "AAPL240119C00195000".toList

/-- The decode of `c6WitnessSym`. -/
def c6WitnessDetails : OptionDetails :=
  { underlying := "AAPL".toList
    expiration_date := { y := 2024, m := 1, d := 19 }
    option_type := .Call
    strike_price := 195 }

/-- Two symbols, each opened and closed on the same date: both aggregated
trades are closed and share their trade date, so the final sort by date
alone cannot fix their relative order. -/
def c9Content : List Char :=
  ("STK_TRD|1|AAPL|APPLE|X|BUYTOOPEN|O|20240101|09:00:00|USD|100|1|10|1000|-1|\n"
    ++ "STK_TRD|2|MSFT|MICROSOFT|X|BUYTOOPEN|O|20240101|09:30:00|USD|50|1|20|1000|-1|\n"
    ++ "STK_TRD|3|AAPL|APPLE|X|SELLTOCLOSE|C|20240101|10:00:00|USD|-100|1|11|-1100|-1|\n"
    ++ "STK_TRD|4|MSFT|MICROSOFT|X|SELLTOCLOSE|C|20240101|10:30:00|USD|-50|1|21|-1050|-1|").toList

/-- The AAPL position tracker built from `c9Content`. -/
def c9TrA : PositionTracker :=
  (lookupTracker (buildTrackers (sortExecutions
      (parse_tlg_file c9Content).executions)) "AAPL".toList).getD
    (PositionTracker.new [] [] .Stock none)

/-- The MSFT position tracker built from `c9Content`. -/
def c9TrM : PositionTracker :=
  (lookupTracker (buildTrackers (sortExecutions
      (parse_tlg_file c9Content).executions)) "MSFT".toList).getD
    (PositionTracker.new [] [] .Stock none)

/-- The aggregated AAPL trade of `c9Content`. -/
def c9TradeA : AggregatedTrade := PositionTracker.to_aggregated_trade c9TrA

/-- The aggregated MSFT trade of `c9Content`. -/
def c9TradeM : AggregatedTrade := PositionTracker.to_aggregated_trade c9TrM

/-- The two tracker keys of `c9Content` in insertion order. -/
def c9Order1 : List (List Char) := ["AAPL".toList, "MSFT".toList]

/-- The two tracker keys of `c9Content` in the opposite order. -/
def c9Order2 : List (List Char) := ["MSFT".toList, "AAPL".toList]

/-- A first exit leg for the manual-trade claim: 4 shares at 100 with a
fee. -/
def c7Exit1 : ExitExecution :=
  { exit_date := ⟨2024, 1, 2⟩, exit_time := some "10:00:00".toList
    quantity := 4, price := 100, fees := some 1 }

/-- A second exit leg: 6 shares at 110, no fee and no time. -/
def c7Exit2 : ExitExecution :=
  { exit_date := ⟨2024, 1, 3⟩, exit_time := none
    quantity := 6, price := 110, fees := none }

/-- A valid manual trade input with entry quantity 10 and the two exit
legs above. -/
def c7Input : CreateTradeInput :=
  { trade_date := ⟨2024, 1, 1⟩, direction := .Long, quantity := some 10
    entry_price := 5, exit_price := none, stop_loss_price := none
    entry_time := none, exit_time := none, fees := none, status := none
    exits := some [c7Exit1, c7Exit2] }

/-- C2: the derivation step yields gross P&L `(exit−entry)×qty×multiplier`
(long) / `(entry−exit)×qty×multiplier` (short) only when exit price and
quantity are both present, net P&L `= gross − fees`, a P&L-per-share that is
independent of quantity and multiplier, risk-per-share `|entry − stop|` that
is `none` when the stop is absent or the difference is exactly zero,
R-multiple `pps ÷ rps` that is `none` when the risk is `none` or zero, a
win/loss/breakeven classification by the strict sign of net P&L that is
`none` when net P&L is absent, and every missing input propagates to `none`
(the function is total, so no panic and no default of zero). -/
theorem calculate_derived_fields_characterization :
    (∀ t : Trade,
      (∀ ex q, t.exit_price = some ex → t.quantity = some q →
        (calculate_derived_fields t).gross_pnl =
            some ((match t.direction with
                   | .Long => ex - t.entry_price
                   | .Short => t.entry_price - ex) * q * t.asset_class.multiplier) ∧
        (calculate_derived_fields t).net_pnl =
            some ((match t.direction with
                   | .Long => ex - t.entry_price
                   | .Short => t.entry_price - ex) * q * t.asset_class.multiplier
                  - t.fees) ∧
        (calculate_derived_fields t).pnl_per_share =
            some (match t.direction with
                  | .Long => ex - t.entry_price
                  | .Short => t.entry_price - ex)) ∧
      ((t.exit_price = none ∨ t.quantity = none) →
        (calculate_derived_fields t).gross_pnl = none ∧
        (calculate_derived_fields t).net_pnl = none ∧
        (calculate_derived_fields t).pnl_per_share = none ∧
        (calculate_derived_fields t).r_multiple = none ∧
        (calculate_derived_fields t).result = none) ∧
      (t.stop_loss_price = none → (calculate_derived_fields t).risk_per_share = none) ∧
      (∀ sl, t.stop_loss_price = some sl →
        (calculate_derived_fields t).risk_per_share =
          if t.entry_price - sl = 0 then none else some |t.entry_price - sl|) ∧
      (∀ pps, (calculate_derived_fields t).pnl_per_share = some pps →
        (calculate_derived_fields t).r_multiple =
          match (calculate_derived_fields t).risk_per_share with
          | none => none
          | some r => if r = 0 then none else some (pps / r)) ∧
      ((calculate_derived_fields t).net_pnl = none →
        (calculate_derived_fields t).result = none) ∧
      (∀ n, (calculate_derived_fields t).net_pnl = some n →
        (calculate_derived_fields t).result =
          some (if 0 < n then .Win else if n < 0 then .Loss else .Breakeven))) ∧
    (∀ t₁ t₂ : Trade, t₁.direction = t₂.direction →
      t₁.entry_price = t₂.entry_price → t₁.exit_price = t₂.exit_price →
      t₁.quantity.isSome → t₂.quantity.isSome →
      (calculate_derived_fields t₁).pnl_per_share =
        (calculate_derived_fields t₂).pnl_per_share) := by
  have hrisk : ∀ t : Trade, ∀ sl, t.stop_loss_price = some sl →
      (calculate_derived_fields t).risk_per_share =
        if t.entry_price - sl = 0 then none else some |t.entry_price - sl| := by
    intro t sl hsl
    simp only [calculate_derived_fields, hsl, Option.bind_some,
      calculate_risk_per_share]
    rcases eq_or_ne (t.entry_price - sl) 0 with h0 | h0
    · simp [h0]
    · simp [h0, abs_pos.mpr h0]
  have hpps : ∀ t : Trade, ∀ ex q, t.exit_price = some ex → t.quantity = some q →
      (calculate_derived_fields t).pnl_per_share =
        some (match t.direction with
              | .Long => ex - t.entry_price
              | .Short => t.entry_price - ex) := by
    intro t ex q hx hq
    simp only [calculate_derived_fields, hx, hq, calculate_pnl_per_share]
  constructor
  · intro t
    refine ⟨?_, ?_, ?_, hrisk t, ?_, ?_, ?_⟩
    · intro ex q hx hq
      refine ⟨?_, ?_, hpps t ex q hx hq⟩
      · simp only [calculate_derived_fields, hx, hq, calculate_gross_pnl]
        cases t.direction <;> rfl
      · simp only [calculate_derived_fields, hx, hq, calculate_gross_pnl,
          calculate_net_pnl]
        cases t.direction <;> rfl
    · intro h
      rcases h with h | h <;>
        · rcases hx : t.exit_price with _ | ex <;>
            rcases hq : t.quantity with _ | q <;>
            simp_all [calculate_derived_fields]
    · intro h
      simp only [calculate_derived_fields, h]
      rfl
    · intro pps hp
      have hxq : ∃ ex q, t.exit_price = some ex ∧ t.quantity = some q := by
        rcases hxx : t.exit_price with _ | ex <;>
          rcases hqq : t.quantity with _ | q <;>
          revert hp <;> simp [calculate_derived_fields, hxx, hqq]
      obtain ⟨ex, q, hxx, hqq⟩ := hxq
      have hp' : calculate_pnl_per_share t.direction t.entry_price ex = pps := by
        revert hp
        simp [calculate_derived_fields, hxx, hqq]
      rcases hsl : t.stop_loss_price with _ | sl
      · simp [calculate_derived_fields, hxx, hqq, hsl, calculate_r_multiple,
          Option.filter]
      · rcases eq_or_ne (t.entry_price - sl) 0 with h0 | h0
        · simp [calculate_derived_fields, hxx, hqq, hsl,
            calculate_risk_per_share, h0, calculate_r_multiple, Option.filter]
        · have habs : |t.entry_price - sl| > 0 := abs_pos.mpr h0
          simp [calculate_derived_fields, hxx, hqq, hsl,
            calculate_risk_per_share, habs, calculate_r_multiple,
            Option.filter, habs.ne', hp', h0]
    · intro h
      revert h
      simp only [calculate_derived_fields]
      rcases t.exit_price with _ | ex <;> rcases t.quantity with _ | q <;> simp
    · intro n hn
      have hn' : ∃ ex q, t.exit_price = some ex ∧ t.quantity = some q ∧
          calculate_net_pnl
            (calculate_gross_pnl t.direction t.entry_price ex q
              t.asset_class.multiplier) t.fees = n := by
        rcases hxx : t.exit_price with _ | ex <;>
          rcases hqq : t.quantity with _ | q <;>
          revert hn <;> simp [calculate_derived_fields, hxx, hqq]
      obtain ⟨ex, q, hxx, hqq, hval⟩ := hn'
      simp only [calculate_derived_fields, hxx, hqq, hval, Option.map_some',
        Option.some.injEq, classify_result]
  · intro t₁ t₂ hdir hentry hexit hq₁ hq₂
    rcases hx : t₁.exit_price with _ | ex
    · rw [hx] at hexit
      rcases hq : t₁.quantity with _ | q <;>
        rcases hq' : t₂.quantity with _ | q' <;>
        simp [calculate_derived_fields, hx, ← hexit, hq, hq']
    · rw [hx] at hexit
      rcases hq : t₁.quantity with _ | q
      · rw [hq] at hq₁; simp at hq₁
      rcases hq' : t₂.quantity with _ | q'
      · rw [hq'] at hq₂; simp at hq₂
      rw [hpps t₁ ex q hx hq, hpps t₂ ex q' hexit.symm hq', hdir, hentry]

end FTJ

namespace FTJ

/-- Witness for C2: the characterization evaluated at the concrete winning
long trade `c2Trade` (entry 150, exit 155, qty 100, stop 145, fees 10). -/
theorem calculate_derived_fields_characterization_witness :
    (calculate_derived_fields c2Trade).gross_pnl = some 500 ∧
    (calculate_derived_fields c2Trade).net_pnl = some 490 ∧
    (calculate_derived_fields c2Trade).pnl_per_share = some 5 ∧
    (calculate_derived_fields c2Trade).risk_per_share = some 5 ∧
    (calculate_derived_fields c2Trade).result = some TradeResult.Win := by
  obtain ⟨hmain, _⟩ := calculate_derived_fields_characterization
  obtain ⟨h1, _, _, h4, _, _, h7⟩ := hmain c2Trade
  obtain ⟨hg, hn, hp⟩ := h1 155 100 rfl rfl
  have hnet : (calculate_derived_fields c2Trade).net_pnl = some 490 :=
    hn.trans (by norm_num [c2Trade, AssetClass.multiplier])
  exact ⟨hg.trans (by norm_num [c2Trade, AssetClass.multiplier]), hnet,
    hp.trans (by norm_num [c2Trade]),
    (h4 145 rfl).trans (by norm_num [c2Trade]),
    (h7 490 hnet).trans (by norm_num)⟩

end FTJ

namespace FTJ

/-! ### Equity-curve lemmas (claim C4 and the drawdown facts reused below) -/

theorem equityScan_map_date (m : List (Date × F)) :
    ∀ (ds : List Date) (cum peak : F),
      (equityScan m ds cum peak).map (·.date) = ds
  | [], _, _ => rfl
  | d :: ds, cum, peak => by
      simp only [equityScan, List.map_cons, List.cons.injEq, true_and]
      exact equityScan_map_date m ds _ _

theorem equityScan_drawdown_nonneg (m : List (Date × F)) :
    ∀ (ds : List Date) (cum peak : F) (p : EquityPoint),
      p ∈ equityScan m ds cum peak → 0 ≤ p.drawdown
  | d :: ds, cum, peak, p, hp => by
      simp only [equityScan, List.mem_cons] at hp
      rcases hp with h | h
      · subst h
        simp only [sub_nonneg]
        exact le_max_right _ _
      · exact equityScan_drawdown_nonneg m ds _ _ p h

theorem equityScan_drawdown_eq (m : List (Date × F)) :
    ∀ (ds : List Date) (cum peak : F) (i : Nat) (p : EquityPoint),
      (equityScan m ds cum peak)[i]? = some p →
      p.drawdown =
        List.foldl max peak
            (((equityScan m ds cum peak).map (·.cumulative_pnl)).take (i + 1))
          - p.cumulative_pnl
  | d :: ds, cum, peak, 0, p, hp => by
      simp only [equityScan, List.getElem?_cons_zero, Option.some.injEq] at hp
      subst hp
      simp [equityScan]
  | d :: ds, cum, peak, i + 1, p, hp => by
      simp only [equityScan, List.getElem?_cons_succ] at hp
      have ih := equityScan_drawdown_eq m ds
        (cum + lookupDaily m d) (max peak (cum + lookupDaily m d)) i p hp
      simpa [equityScan, List.foldl_cons] using ih

theorem dailyPnlUpdate_mem_keys (d : Date) (v : F) (x : Date) :
    ∀ m : List (Date × F),
      (x ∈ (dailyPnlUpdate m d v).map Prod.fst ↔
        x = d ∨ x ∈ m.map Prod.fst)
  | [] => by simp [dailyPnlUpdate]
  | (k, w) :: rest => by
      by_cases hk : k = d
      · subst hk
        simp [dailyPnlUpdate]
      · simp only [dailyPnlUpdate, if_neg hk, List.map_cons, List.mem_cons,
          dailyPnlUpdate_mem_keys d v x rest]
        tauto

theorem dailyPnlUpdate_keys_nodup (d : Date) (v : F) :
    ∀ m : List (Date × F),
      (m.map Prod.fst).Nodup → ((dailyPnlUpdate m d v).map Prod.fst).Nodup
  | [], _ => by simp [dailyPnlUpdate]
  | (k, w) :: rest, h => by
      simp only [List.map_cons, List.nodup_cons] at h
      by_cases hk : k = d
      · subst hk
        simpa [dailyPnlUpdate] using h
      · simp only [dailyPnlUpdate, if_neg hk, List.map_cons, List.nodup_cons]
        refine ⟨?_, dailyPnlUpdate_keys_nodup d v rest h.2⟩
        rw [dailyPnlUpdate_mem_keys]
        push_neg
        exact ⟨hk, h.1⟩

theorem dailyPnl_fold_mem_keys (x : Date) :
    ∀ (trades : List TradeWithDerived) (m : List (Date × F)),
      (x ∈ (trades.foldl dailyPnlStep m).map Prod.fst ↔
        x ∈ m.map Prod.fst ∨
          ∃ t ∈ trades, t.net_pnl ≠ none ∧ t.trade.trade_date = x)
  | [], m => by simp
  | t :: trades, m => by
      rcases hnet : t.net_pnl with _ | net
      · simp only [List.foldl_cons, dailyPnlStep, hnet,
          dailyPnl_fold_mem_keys x trades m, List.mem_cons]
        constructor
        · rintro (h | h)
          · exact Or.inl h
          · exact Or.inr ⟨h.choose, Or.inr h.choose_spec.1, h.choose_spec.2⟩
        · rintro (h | ⟨u, hu | hu, hnet', hd⟩)
          · exact Or.inl h
          · exact absurd (hu ▸ hnet) hnet'
          · exact Or.inr ⟨u, hu, hnet', hd⟩
      · simp only [List.foldl_cons, dailyPnlStep, hnet,
          dailyPnl_fold_mem_keys x trades (dailyPnlUpdate m t.trade.trade_date net),
          dailyPnlUpdate_mem_keys, List.mem_cons]
        constructor
        · rintro ((h | h) | h)
          · exact Or.inr ⟨t, Or.inl rfl, by simp [hnet], h.symm⟩
          · exact Or.inl h
          · exact Or.inr ⟨h.choose, Or.inr h.choose_spec.1, h.choose_spec.2⟩
        · rintro (h | ⟨u, hu | hu, hnet', hd⟩)
          · exact Or.inl (Or.inr h)
          · subst hu
            exact Or.inl (Or.inl hd.symm)
          · exact Or.inr ⟨u, hu, hnet', hd⟩

theorem dailyPnl_fold_keys_nodup :
    ∀ (trades : List TradeWithDerived) (m : List (Date × F)),
      (m.map Prod.fst).Nodup → ((trades.foldl dailyPnlStep m).map Prod.fst).Nodup
  | [], m, h => h
  | t :: trades, m, h => by
      rcases hnet : t.net_pnl with _ | net
      · simpa only [List.foldl_cons, dailyPnlStep, hnet] using
          dailyPnl_fold_keys_nodup trades m h
      · simpa only [List.foldl_cons, dailyPnlStep, hnet] using
          dailyPnl_fold_keys_nodup trades _
            (dailyPnlUpdate_keys_nodup t.trade.trade_date net m h)

theorem dailyPnlMap_mem_keys (trades : List TradeWithDerived) (x : Date) :
    x ∈ (dailyPnlMap trades).map Prod.fst ↔
      ∃ t ∈ trades, t.net_pnl ≠ none ∧ t.trade.trade_date = x := by
  rw [dailyPnlMap, dailyPnl_fold_mem_keys]
  simp

theorem dailyPnlMap_keys_nodup (trades : List TradeWithDerived) :
    ((dailyPnlMap trades).map Prod.fst).Nodup :=
  dailyPnl_fold_keys_nodup trades [] (by simp)

end FTJ

namespace FTJ

theorem calculate_equity_curve_map_date (trades : List TradeWithDerived) :
    (calculate_equity_curve trades).map (·.date) =
      List.insertionSort Date.le ((dailyPnlMap trades).map Prod.fst) := by
  simp only [calculate_equity_curve]
  exact equityScan_map_date _ _ _ _

/-- C4 (amended): the equity curve has exactly one point per distinct trade
date carrying realized P&L, points strictly ascending by date, and for every
index `i`: `drawdown[i] ≥ 0` and `drawdown[i] = peak(i) − cumulative[i]`
where `peak(i) = max(0, max(cumulative[0..=i]))` — the running peak starts
at 0, so a curve that never rises above its starting point measures its
drawdown from 0, not from its own (negative) maximum. -/
theorem calculate_equity_curve_characterization (trades : List TradeWithDerived) :
    List.Pairwise Date.lt ((calculate_equity_curve trades).map (·.date)) ∧
    (∀ d, d ∈ (calculate_equity_curve trades).map (·.date) ↔
      ∃ t ∈ trades, t.net_pnl ≠ none ∧ t.trade.trade_date = d) ∧
    (∀ i p, (calculate_equity_curve trades)[i]? = some p →
      p.drawdown = List.foldl max 0
          (((calculate_equity_curve trades).map (·.cumulative_pnl)).take (i + 1))
        - p.cumulative_pnl ∧ 0 ≤ p.drawdown) := by
  have hdates := calculate_equity_curve_map_date trades
  have hperm := List.perm_insertionSort Date.le ((dailyPnlMap trades).map Prod.fst)
  refine ⟨?_, ?_, ?_⟩
  · rw [hdates]
    have hsorted := List.sorted_insertionSort Date.le
      ((dailyPnlMap trades).map Prod.fst)
    have hnodup : (List.insertionSort Date.le
        ((dailyPnlMap trades).map Prod.fst)).Nodup :=
      hperm.nodup_iff.mpr (dailyPnlMap_keys_nodup trades)
    exact (hsorted.and hnodup).imp fun h => ⟨h.1, h.2⟩
  · intro d
    rw [hdates, hperm.mem_iff, dailyPnlMap_mem_keys]
  · intro i p hp
    refine ⟨?_, ?_⟩
    · simp only [calculate_equity_curve] at hp ⊢
      exact equityScan_drawdown_eq _ _ _ _ i p hp
    · simp only [calculate_equity_curve] at hp
      have hmem : p ∈ equityScan (dailyPnlMap trades)
          (List.insertionSort Date.le ((dailyPnlMap trades).map Prod.fst)) 0 0 :=
        List.getElem?_mem hp
      exact equityScan_drawdown_nonneg _ _ _ _ p hmem

theorem equity_curve_single_loss_eval :
    calculate_equity_curve [c4LossTrade] =
      [{ date := ⟨2024, 1, 2⟩, cumulative_pnl := -100, drawdown := 100 }] := by
  norm_num [calculate_equity_curve, dailyPnlMap, dailyPnlStep, dailyPnlUpdate,
    c4LossTrade, sampleTWD, equityScan, lookupDaily, List.insertionSort,
    List.orderedInsert, List.find?]

/-- Counterexample to C4 as stated: for a single losing trade (net −100) the
curve's only point has drawdown 100 (peak 0 from the start of the scan), but
`peak(0) = max(cumulative[0..=0]) = −100` would force drawdown 0. -/
theorem claimC4DrawdownPred_counterexample :
    ¬ claimC4DrawdownPred [c4LossTrade] := by
  intro h
  have h0 := h 0 { date := ⟨2024, 1, 2⟩, cumulative_pnl := -100, drawdown := 100 }
    (by rw [equity_curve_single_loss_eval]; rfl)
  rw [equity_curve_single_loss_eval] at h0
  norm_num [claimPeak] at h0

/-- Witness for C4 (amended) at trades +1000 then −800: the second curve
point has drawdown 800 = max(0, 1000, 200) − 200 ≥ 0. -/
theorem calculate_equity_curve_characterization_witness :
    ∃ p, (calculate_equity_curve c4WitnessTrades)[1]? = some p ∧
      p.drawdown = List.foldl max 0
          (((calculate_equity_curve c4WitnessTrades).map (·.cumulative_pnl)).take 2)
        - p.cumulative_pnl ∧ 0 ≤ p.drawdown := by
  have heval : calculate_equity_curve c4WitnessTrades =
      [{ date := ⟨2024, 1, 1⟩, cumulative_pnl := 1000, drawdown := 0 },
       { date := ⟨2024, 1, 2⟩, cumulative_pnl := 200, drawdown := 800 }] := by
    norm_num [calculate_equity_curve, dailyPnlMap, dailyPnlStep, dailyPnlUpdate,
      c4WitnessTrades, sampleTWD, equityScan, lookupDaily, List.insertionSort,
      List.orderedInsert, List.find?, Date.le]
  have hp : (calculate_equity_curve c4WitnessTrades)[1]? =
      some { date := ⟨2024, 1, 2⟩, cumulative_pnl := 200, drawdown := 800 } := by
    rw [heval]; rfl
  exact ⟨_, hp, (calculate_equity_curve_characterization c4WitnessTrades).2.2 1 _ hp⟩

end FTJ

namespace FTJ

/-! ### Period-metrics lemmas (claims C3, C8, C10) -/

theorem pmFold_characterization :
    ∀ (l : List TradeWithDerived) (s : PMAcc),
      (l.foldl pmStep s).total_net = s.total_net + netSumOf l ∧
      (l.foldl pmStep s).win = s.win + winCountOf l ∧
      (l.foldl pmStep s).loss = s.loss + lossCountOf l ∧
      (l.foldl pmStep s).brk = s.brk + breakevenCountOf l ∧
      (l.foldl pmStep s).total_wins = s.total_wins + sumWinsOf l ∧
      (l.foldl pmStep s).total_losses = s.total_losses + sumLossesOf l
  | [], s => by
      simp [netSumOf, winCountOf, lossCountOf, breakevenCountOf, sumWinsOf,
        sumLossesOf]
  | t :: l, s => by
      obtain ⟨ih1, ih2, ih3, ih4, ih5, ih6⟩ :=
        pmFold_characterization l (pmStep s t)
      rcases hnet : t.net_pnl with _ | net
      · have hstep : pmStep s t = s := by simp [pmStep, hnet]
        rw [hstep] at ih1 ih2 ih3 ih4 ih5 ih6
        refine ⟨?_, ?_, ?_, ?_, ?_, ?_⟩ <;>
          simp [List.foldl_cons, hstep, ih1, ih2, ih3, ih4, ih5, ih6,
            netSumOf, winCountOf, lossCountOf, breakevenCountOf, sumWinsOf,
            sumLossesOf, hasNet, isWinT, isLossT, isBreakevenT,
            List.filter_cons, hnet]
      · rcases hres : t.result with _ | r
        · have hstep : pmStep s t =
              { s with total_net := s.total_net + net } := by
            simp [pmStep, hnet, hres]
          rw [hstep] at ih1 ih2 ih3 ih4 ih5 ih6
          refine ⟨?_, ?_, ?_, ?_, ?_, ?_⟩ <;>
            simp [List.foldl_cons, hstep, ih1, ih2, ih3, ih4, ih5, ih6,
              netSumOf, winCountOf, lossCountOf, breakevenCountOf, sumWinsOf,
              sumLossesOf, hasNet, isWinT, isLossT, isBreakevenT,
              List.filter_cons, hnet, hres, netValOf] <;> ring
        · cases r
          · have hstep : pmStep s t =
                { s with total_net := s.total_net + net, win := s.win + 1
                         total_wins := s.total_wins + net, cw := s.cw + 1
                         cl := 0, mw := max s.mw (s.cw + 1) } := by
              simp [pmStep, hnet, hres]
            rw [hstep] at ih1 ih2 ih3 ih4 ih5 ih6
            refine ⟨?_, ?_, ?_, ?_, ?_, ?_⟩ <;>
              simp [List.foldl_cons, hstep, ih1, ih2, ih3, ih4, ih5, ih6,
                netSumOf, winCountOf, lossCountOf, breakevenCountOf, sumWinsOf,
                sumLossesOf, hasNet, isWinT, isLossT, isBreakevenT,
                List.filter_cons, hnet, hres, netValOf] <;> first | ring | omega
          · have hstep : pmStep s t =
                { s with total_net := s.total_net + net, loss := s.loss + 1
                         total_losses := s.total_losses + net, cl := s.cl + 1
                         cw := 0, ml := max s.ml (s.cl + 1) } := by
              simp [pmStep, hnet, hres]
            rw [hstep] at ih1 ih2 ih3 ih4 ih5 ih6
            refine ⟨?_, ?_, ?_, ?_, ?_, ?_⟩ <;>
              simp [List.foldl_cons, hstep, ih1, ih2, ih3, ih4, ih5, ih6,
                netSumOf, winCountOf, lossCountOf, breakevenCountOf, sumWinsOf,
                sumLossesOf, hasNet, isWinT, isLossT, isBreakevenT,
                List.filter_cons, hnet, hres, netValOf] <;> first | ring | omega
          · have hstep : pmStep s t =
                { s with total_net := s.total_net + net, brk := s.brk + 1
                         cw := 0, cl := 0 } := by
              simp [pmStep, hnet, hres]
            rw [hstep] at ih1 ih2 ih3 ih4 ih5 ih6
            refine ⟨?_, ?_, ?_, ?_, ?_, ?_⟩ <;>
              simp [List.foldl_cons, hstep, ih1, ih2, ih3, ih4, ih5, ih6,
                netSumOf, winCountOf, lossCountOf, breakevenCountOf, sumWinsOf,
                sumLossesOf, hasNet, isWinT, isLossT, isBreakevenT,
                List.filter_cons, hnet, hres, netValOf] <;> first | ring | omega

theorem winCountOf_perm {l l' : List TradeWithDerived} (h : l.Perm l') :
    winCountOf l = winCountOf l' := (h.filter isWinT).length_eq

theorem lossCountOf_perm {l l' : List TradeWithDerived} (h : l.Perm l') :
    lossCountOf l = lossCountOf l' := (h.filter isLossT).length_eq

theorem breakevenCountOf_perm {l l' : List TradeWithDerived} (h : l.Perm l') :
    breakevenCountOf l = breakevenCountOf l' := (h.filter isBreakevenT).length_eq

theorem sumWinsOf_perm {l l' : List TradeWithDerived} (h : l.Perm l') :
    sumWinsOf l = sumWinsOf l' := ((h.filter isWinT).map netValOf).sum_eq

theorem sumLossesOf_perm {l l' : List TradeWithDerived} (h : l.Perm l') :
    sumLossesOf l = sumLossesOf l' := ((h.filter isLossT).map netValOf).sum_eq

theorem netSumOf_perm {l l' : List TradeWithDerived} (h : l.Perm l') :
    netSumOf l = netSumOf l' := ((h.filter hasNet).map netValOf).sum_eq

theorem resultConsistent_perm {l l' : List TradeWithDerived} (h : l.Perm l')
    (hc : resultConsistent l) : resultConsistent l' :=
  fun t ht => hc t (h.mem_iff.mpr ht)

theorem classify_result_eq_loss {n : F} (h : classify_result n = .Loss) :
    n < 0 := by
  by_contra hn
  push_neg at hn
  rcases eq_or_lt_of_le hn with h0 | hpos
  · simp [classify_result, ← h0] at h
  · simp [classify_result, hpos] at h

theorem classify_result_eq_win {n : F} (h : classify_result n = .Win) :
    0 < n := by
  by_contra hn
  push_neg at hn
  rcases eq_or_lt_of_le hn with h0 | hneg
  · simp [classify_result, h0] at h
  · simp [classify_result, hneg, asymm hneg] at h

theorem loss_net_neg {t : TradeWithDerived}
    (hc : t.result = t.net_pnl.map classify_result) (hl : isLossT t = true) :
    netValOf t < 0 := by
  rcases hnet : t.net_pnl with _ | net
  · simp [isLossT, hnet] at hl
  · simp only [isLossT, hnet, Option.isSome_some, Bool.true_and,
      decide_eq_true_eq] at hl
    rw [hnet] at hc
    rw [hl] at hc
    simp only [Option.map_some', Option.some.injEq] at hc
    simpa [netValOf, hnet] using classify_result_eq_loss hc.symm

theorem win_net_pos {t : TradeWithDerived}
    (hc : t.result = t.net_pnl.map classify_result) (hw : isWinT t = true) :
    0 < netValOf t := by
  rcases hnet : t.net_pnl with _ | net
  · simp [isWinT, hnet] at hw
  · simp only [isWinT, hnet, Option.isSome_some, Bool.true_and,
      decide_eq_true_eq] at hw
    rw [hnet] at hc
    rw [hw] at hc
    simp only [Option.map_some', Option.some.injEq] at hc
    simpa [netValOf, hnet] using classify_result_eq_win hc.symm

theorem sumLossesOf_neg (l : List TradeWithDerived)
    (hc : resultConsistent l) :
    sumLossesOf l ≤ 0 ∧ (0 < lossCountOf l → sumLossesOf l < 0) := by
  induction l with
  | nil => simp [sumLossesOf, lossCountOf]
  | cons t l ih =>
      have hct : t.result = t.net_pnl.map classify_result := hc t (by simp)
      have hcl : resultConsistent l := fun u hu => hc u (by simp [hu])
      obtain ⟨ih1, ih2⟩ := ih hcl
      by_cases hl : isLossT t
      · have hneg := loss_net_neg hct hl
        constructor
        · simp only [sumLossesOf, lossCountOf, List.filter_cons, hl,
            if_pos, List.map_cons, List.sum_cons]
          have := ih1
          simp only [sumLossesOf] at this
          linarith
        · intro _
          simp only [sumLossesOf, List.filter_cons, hl, if_pos,
            List.map_cons, List.sum_cons]
          have := ih1
          simp only [sumLossesOf] at this
          linarith
      · simp only [sumLossesOf, lossCountOf, List.filter_cons,
          Bool.not_eq_true] at *
        rw [hl] at *
        simp only [Bool.false_eq_true, if_false] at *
        exact ⟨ih1, ih2⟩

theorem sumWinsOf_pos (l : List TradeWithDerived)
    (hc : resultConsistent l) :
    0 ≤ sumWinsOf l ∧ (0 < winCountOf l → 0 < sumWinsOf l) := by
  induction l with
  | nil => simp [sumWinsOf, winCountOf]
  | cons t l ih =>
      have hct : t.result = t.net_pnl.map classify_result := hc t (by simp)
      have hcl : resultConsistent l := fun u hu => hc u (by simp [hu])
      obtain ⟨ih1, ih2⟩ := ih hcl
      by_cases hw : isWinT t
      · have hpos := win_net_pos hct hw
        constructor
        · simp only [sumWinsOf, List.filter_cons, hw, if_pos,
            List.map_cons, List.sum_cons]
          have := ih1
          simp only [sumWinsOf] at this
          linarith
        · intro _
          simp only [sumWinsOf, List.filter_cons, hw, if_pos,
            List.map_cons, List.sum_cons]
          have := ih1
          simp only [sumWinsOf] at this
          linarith
      · simp only [sumWinsOf, winCountOf, List.filter_cons,
          Bool.not_eq_true] at *
        rw [hw] at *
        simp only [Bool.false_eq_true, if_false] at *
        exact ⟨ih1, ih2⟩

theorem sumLossesOf_eq_zero (l : List TradeWithDerived)
    (h : lossCountOf l = 0) : sumLossesOf l = 0 := by
  have : l.filter isLossT = [] := List.length_eq_zero.mp h
  simp [sumLossesOf, this]

theorem sumWinsOf_eq_zero (l : List TradeWithDerived)
    (h : winCountOf l = 0) : sumWinsOf l = 0 := by
  have : l.filter isWinT = [] := List.length_eq_zero.mp h
  simp [sumWinsOf, this]

theorem init_le_foldl_max : ∀ (l : List F) (a : F), a ≤ l.foldl max a
  | [], a => le_refl a
  | x :: l, a =>
      le_trans (le_max_left a x) (init_le_foldl_max l (max a x))

theorem le_foldl_max (l : List F) : ∀ (a x : F), x ∈ l → x ≤ l.foldl max a := by
  induction l with
  | nil => intro a x hx; simp at hx
  | cons y l ih =>
      intro a x hx
      rcases List.mem_cons.mp hx with h | h
      · subst h
        calc x ≤ max a x := le_max_right _ _
        _ ≤ List.foldl max (max a x) l := init_le_foldl_max l _
      · exact ih (max a y) x h

theorem foldl_max_mem : ∀ (l : List F) (a : F),
    l.foldl max a = a ∨ l.foldl max a ∈ l
  | [], a => Or.inl rfl
  | x :: l, a => by
      rcases foldl_max_mem l (max a x) with h | h
      · rcases max_choice a x with hm | hm
        · refine Or.inl ?_
          rw [List.foldl_cons, h, hm]
        · refine Or.inr ?_
          rw [List.foldl_cons, h, hm]
          exact List.mem_cons_self x l
      · exact Or.inr (List.mem_cons_of_mem x h)

end FTJ

namespace FTJ

/-- C3: period metrics satisfy `win_rate = wins/(wins+losses)` (`none`
without a decisive trade), `avg_win = Σwins/wins` (`none` without wins),
`avg_loss = Σlosses/losses`, negative, (`none` without losses),
`profit_factor = Σwins/|Σlosses|` when losses exist, `+∞` when wins exist
with zero losses, `none` when nothing decisive occurred,
`expectancy = win_rate×avg_win + (1−win_rate)×avg_loss` exactly when all
three inputs are present, and `max_drawdown` is the maximum of the
per-point drawdowns of the equity curve built from the same (date-sorted)
trade set, or zero for an empty curve.  The hypothesis is the analytics
layer's input contract: carried classifications agree with the carried net
P&L. -/
theorem calculate_period_metrics_characterization
    (trades : List TradeWithDerived) (hc : resultConsistent trades) :
    (calculate_period_metrics trades).win_rate =
      (if 0 < winCountOf trades + lossCountOf trades
       then some ((winCountOf trades : F) /
         ((winCountOf trades + lossCountOf trades : Nat) : F))
       else none) ∧
    (calculate_period_metrics trades).avg_win =
      (if 0 < winCountOf trades
       then some (sumWinsOf trades / (winCountOf trades : F)) else none) ∧
    (calculate_period_metrics trades).avg_loss =
      (if 0 < lossCountOf trades
       then some (sumLossesOf trades / (lossCountOf trades : F)) else none) ∧
    (∀ x, (calculate_period_metrics trades).avg_loss = some x → x < 0) ∧
    (calculate_period_metrics trades).profit_factor =
      (if 0 < lossCountOf trades
       then some (.finite (sumWinsOf trades / |sumLossesOf trades|))
       else if 0 < winCountOf trades then some .inf else none) ∧
    (calculate_period_metrics trades).expectancy =
      (match (calculate_period_metrics trades).win_rate,
             (calculate_period_metrics trades).avg_win,
             (calculate_period_metrics trades).avg_loss with
       | some wr, some aw, some al => some (wr * aw + (1 - wr) * al)
       | _, _, _ => none) ∧
    (calculate_period_metrics trades).max_drawdown =
      List.foldl max 0
        ((calculate_equity_curve (sortTradesByDate trades)).map (·.drawdown)) ∧
    (calculate_equity_curve (sortTradesByDate trades) = [] →
      (calculate_period_metrics trades).max_drawdown = 0) ∧
    (calculate_equity_curve (sortTradesByDate trades) ≠ [] →
      (calculate_period_metrics trades).max_drawdown ∈
        (calculate_equity_curve (sortTradesByDate trades)).map (·.drawdown)) ∧
    (∀ p ∈ calculate_equity_curve (sortTradesByDate trades),
      p.drawdown ≤ (calculate_period_metrics trades).max_drawdown) := by
  by_cases hemp : trades = []
  · subst hemp
    refine ⟨?_, ?_, ?_, ?_, ?_, ?_, ?_, ?_, ?_, ?_⟩ <;>
      simp [calculate_period_metrics, PeriodMetrics.defaultVal, winCountOf,
        lossCountOf, sumWinsOf, sumLossesOf, sortTradesByDate,
        calculate_equity_curve, dailyPnlMap, equityScan, List.insertionSort]
  · have hperm : (List.insertionSort twdLe trades).Perm trades :=
      List.perm_insertionSort twdLe trades
    have hcs : resultConsistent (sortTradesByDate trades) :=
      resultConsistent_perm hperm.symm hc
    obtain ⟨hs1, hs2, hs3, hs4, hs5, hs6⟩ :=
      pmFold_characterization (sortTradesByDate trades) pmInit
    have hwin : (List.foldl pmStep pmInit (sortTradesByDate trades)).win =
        winCountOf trades := by
      rw [hs2]
      simp only [pmInit, Nat.zero_add]
      exact winCountOf_perm hperm
    have hloss : (List.foldl pmStep pmInit (sortTradesByDate trades)).loss =
        lossCountOf trades := by
      rw [hs3]
      simp only [pmInit, Nat.zero_add]
      exact lossCountOf_perm hperm
    have htw : (List.foldl pmStep pmInit (sortTradesByDate trades)).total_wins =
        sumWinsOf trades := by
      rw [hs5]
      simp only [pmInit, zero_add]
      exact sumWinsOf_perm hperm
    have htl : (List.foldl pmStep pmInit (sortTradesByDate trades)).total_losses =
        sumLossesOf trades := by
      rw [hs6]
      simp only [pmInit, zero_add]
      exact sumLossesOf_perm hperm
    have hlneg := sumLossesOf_neg trades hc
    have hwpos := sumWinsOf_pos trades hc
    have hl_iff : sumLossesOf trades < 0 ↔ 0 < lossCountOf trades := by
      constructor
      · intro h
        by_contra hn
        push_neg at hn
        interval_cases h' : lossCountOf trades
        · rw [sumLossesOf_eq_zero trades h'] at h
          exact absurd h (lt_irrefl 0)
      · exact hlneg.2
    have hw_iff : 0 < sumWinsOf trades ↔ 0 < winCountOf trades := by
      constructor
      · intro h
        by_contra hn
        push_neg at hn
        interval_cases h' : winCountOf trades
        · rw [sumWinsOf_eq_zero trades h'] at h
          exact absurd h (lt_irrefl 0)
      · exact hwpos.2
    simp only [calculate_period_metrics, if_neg hemp, hwin, hloss, htw, htl]
    refine ⟨by trivial, by trivial, by trivial, ?_, ?_, by trivial, by trivial,
      ?_, ?_, ?_⟩
    · intro x hx
      split at hx
      · rename_i hcount
        have hsum : sumLossesOf trades < 0 := hl_iff.mpr hcount
        have hden : (0 : F) < (lossCountOf trades : F) := by
          exact_mod_cast hcount
        rw [Option.some_inj] at hx
        rw [← hx]
        exact div_neg_of_neg_of_pos hsum hden
      · exact absurd hx (by simp)
    · by_cases hlc : 0 < lossCountOf trades
      · rw [if_pos (hl_iff.mpr hlc), if_pos hlc]
      · rw [if_neg (fun h => hlc (hl_iff.mp h)), if_neg hlc]
        by_cases hwc : 0 < winCountOf trades
        · rw [if_pos (hw_iff.mpr hwc), if_pos hwc]
        · rw [if_neg (fun h => hwc (hw_iff.mp h)), if_neg hwc]
    · intro h
      rw [h]
      rfl
    · intro hne
      have hnonneg : ∀ x ∈ (calculate_equity_curve
          (sortTradesByDate trades)).map (·.drawdown), 0 ≤ x := by
        intro x hx
        obtain ⟨p, hp, rfl⟩ := List.mem_map.mp hx
        simp only [calculate_equity_curve] at hp
        exact equityScan_drawdown_nonneg _ _ _ _ p hp
      rcases foldl_max_mem ((calculate_equity_curve
          (sortTradesByDate trades)).map (·.drawdown)) 0 with h0 | hmem
      · rw [h0]
        obtain ⟨x, hx⟩ := List.exists_mem_of_ne_nil _
          (by simpa using hne :
            (calculate_equity_curve (sortTradesByDate trades)).map
                (·.drawdown) ≠ [])
        have hle := le_foldl_max _ 0 x hx
        rw [h0] at hle
        have hge := hnonneg x hx
        have : x = 0 := le_antisymm hle hge
        rw [← this]
        exact hx
      · exact hmem
    · intro p hp
      exact le_foldl_max _ 0 p.drawdown (List.mem_map_of_mem _ hp)

end FTJ

namespace FTJ

/-- Witness for C3 at one +200 win and one −100 loss: win rate 1/2, profit
factor 2, average loss −100 (negative). -/
theorem calculate_period_metrics_characterization_witness :
    (calculate_period_metrics c3WitnessTrades).win_rate = some (1 / 2) ∧
    (calculate_period_metrics c3WitnessTrades).profit_factor =
      some (F64Val.finite 2) ∧
    (calculate_period_metrics c3WitnessTrades).avg_loss = some (-100) := by
  have hc : resultConsistent c3WitnessTrades := by
    intro t ht
    simp only [c3WitnessTrades, List.mem_cons, List.not_mem_nil, or_false] at ht
    rcases ht with rfl | rfl <;> (norm_num [sampleTWD, classify_result])
  obtain ⟨h1, _, h3, _, h5, _⟩ :=
    calculate_period_metrics_characterization c3WitnessTrades hc
  have hwc : winCountOf c3WitnessTrades = 1 := by
    simp [winCountOf, isWinT, c3WitnessTrades, sampleTWD, List.filter_cons]
  have hlc : lossCountOf c3WitnessTrades = 1 := by
    simp [lossCountOf, isLossT, c3WitnessTrades, sampleTWD, List.filter_cons]
  have hsw : sumWinsOf c3WitnessTrades = 200 := by
    simp [sumWinsOf, isWinT, c3WitnessTrades, sampleTWD, List.filter_cons,
      netValOf]
  have hsl : sumLossesOf c3WitnessTrades = -100 := by
    simp [sumLossesOf, isLossT, c3WitnessTrades, sampleTWD, List.filter_cons,
      netValOf]
  refine ⟨h1.trans ?_, h5.trans ?_, h3.trans ?_⟩
  · rw [hwc, hlc]
    norm_num
  · rw [hwc, hlc, hsw, hsl]
    norm_num
  · rw [hlc, hsl]
    norm_num

end FTJ

namespace FTJ

/-! ### Stable-sort lemmas (claims C8 and C10) -/

theorem orderedInsert_eq_cons {α : Type} (r : α → α → Prop) [DecidableRel r]
    (a : α) : ∀ (m : List α), (∀ x ∈ m, r a x) → m.orderedInsert r a = a :: m
  | [], _ => rfl
  | x :: m, h => List.orderedInsert_of_le r _ (h x (by simp))

theorem filter_orderedInsert_sorted {α : Type} (r : α → α → Prop)
    [DecidableRel r] [IsTotal α r] [IsTrans α r] (p : α → Bool) (a : α) :
    ∀ (l : List α), l.Sorted r →
      (l.orderedInsert r a).filter p =
        if p a then (l.filter p).orderedInsert r a else l.filter p
  | [], _ => by
      simp only [List.orderedInsert_nil, List.filter_cons, List.filter_nil]
  | b :: t, hs => by
      have hst : t.Sorted r := hs.of_cons
      by_cases hab : r a b
      · rw [List.orderedInsert_of_le r t hab]
        by_cases hpa : p a
        · rw [if_pos hpa]
          have hall : ∀ x ∈ (b :: t).filter p, r a x := by
            intro x hx
            have hx' := List.mem_of_mem_filter hx
            rcases List.mem_cons.mp hx' with rfl | hxt
            · exact hab
            · exact Trans.trans hab (List.rel_of_sorted_cons hs x hxt)
          rw [orderedInsert_eq_cons r a _ hall]
          simp [List.filter_cons, hpa]
        · rw [if_neg hpa]
          simp [List.filter_cons, hpa]
      · have hins : (b :: t).orderedInsert r a = b :: t.orderedInsert r a := by
          simp [List.orderedInsert, hab]
        rw [hins]
        by_cases hpb : p b
        · simp only [List.filter_cons, hpb, if_pos]
          rw [filter_orderedInsert_sorted r p a t hst]
          by_cases hpa : p a
          · rw [if_pos hpa, if_pos hpa]
            have : (b :: t.filter p).orderedInsert r a =
                b :: (t.filter p).orderedInsert r a := by
              simp [List.orderedInsert, hab]
            rw [this]
          · rw [if_neg hpa, if_neg hpa]
        · simp only [List.filter_cons, hpb, Bool.false_eq_true, if_false]
          rw [filter_orderedInsert_sorted r p a t hst]

theorem filter_insertionSort_comm {α : Type} (r : α → α → Prop)
    [DecidableRel r] [IsTotal α r] [IsTrans α r] (p : α → Bool) :
    ∀ l : List α,
      (List.insertionSort r l).filter p = List.insertionSort r (l.filter p)
  | [] => rfl
  | a :: l => by
      simp only [List.insertionSort]
      rw [filter_orderedInsert_sorted r p a _ (List.sorted_insertionSort r l),
        filter_insertionSort_comm r p l]
      by_cases hpa : p a
      · rw [if_pos hpa, List.filter_cons, if_pos hpa]
        rfl
      · rw [if_neg hpa, List.filter_cons, if_neg hpa]

theorem insertionSort_eq_self {α : Type} (r : α → α → Prop) [DecidableRel r] :
    ∀ l : List α, (∀ a ∈ l, ∀ b ∈ l, r a b) → List.insertionSort r l = l
  | [], _ => rfl
  | a :: l, h => by
      have htail : List.insertionSort r l = l :=
        insertionSort_eq_self r l
          (fun x hx y hy => h x (by simp [hx]) y (by simp [hy]))
      simp only [List.insertionSort, htail]
      exact orderedInsert_eq_cons r a l
        (fun x hx => h a (by simp) x (by simp [hx]))

theorem sortTradesByDate_stable (trades : List TradeWithDerived) (d : Date) :
    (sortTradesByDate trades).filter
        (fun t => decide (t.trade.trade_date = d)) =
      trades.filter (fun t => decide (t.trade.trade_date = d)) := by
  unfold sortTradesByDate
  rw [filter_insertionSort_comm twdLe _]
  apply insertionSort_eq_self
  intro a ha b hb
  have hda := of_decide_eq_true (List.mem_filter.mp ha).2
  have hdb := of_decide_eq_true (List.mem_filter.mp hb).2
  unfold twdLe
  rw [hda, hdb]
  exact refl_of Date.le d

/-! ### Streak lemmas (claim C8) -/

theorem pmStep_streak_agree (s : PMAcc) (t : TradeWithDerived) :
    streakStep ⟨s.cw, s.cl, s.mw, s.ml⟩ t =
      ⟨(pmStep s t).cw, (pmStep s t).cl, (pmStep s t).mw, (pmStep s t).ml⟩ := by
  rcases hnet : t.net_pnl with _ | net
  · simp [streakStep, pmStep, hnet]
  · rcases hres : t.result with _ | r
    · simp [streakStep, pmStep, hnet, hres]
    · cases r <;> simp [streakStep, pmStep, hnet, hres]

theorem pmFold_streaks :
    ∀ (l : List TradeWithDerived) (s : PMAcc),
      l.foldl streakStep ⟨s.cw, s.cl, s.mw, s.ml⟩ =
        ⟨(l.foldl pmStep s).cw, (l.foldl pmStep s).cl,
         (l.foldl pmStep s).mw, (l.foldl pmStep s).ml⟩
  | [], s => rfl
  | t :: l, s => by
      simp only [List.foldl_cons]
      rw [pmStep_streak_agree s t]
      exact pmFold_streaks l (pmStep s t)

end FTJ

namespace FTJ

/-- C8: streaks are computed over the trades stably sorted ascending by date
(the sorted sequence is date-sorted and ties keep their original relative
order), each win extends the win streak and resets the loss streak, each
loss does the converse, a breakeven resets both without extending either,
and the reported values are the maxima ever reached; on the scenario
W,W,W,L,L the maxima are 3 and 2, and inserting a breakeven between the
third win and the first loss still yields 3 and 2. -/
theorem calculate_period_metrics_streaks (trades : List TradeWithDerived) :
    (calculate_period_metrics trades).max_win_streak =
      (streaksOf (sortTradesByDate trades)).mw ∧
    (calculate_period_metrics trades).max_loss_streak =
      (streaksOf (sortTradesByDate trades)).ml ∧
    List.Sorted twdLe (sortTradesByDate trades) ∧
    (∀ d, (sortTradesByDate trades).filter
        (fun t => decide (t.trade.trade_date = d)) =
      trades.filter (fun t => decide (t.trade.trade_date = d))) ∧
    (calculate_period_metrics c8ScenarioA).max_win_streak = 3 ∧
    (calculate_period_metrics c8ScenarioA).max_loss_streak = 2 ∧
    (calculate_period_metrics c8ScenarioB).max_win_streak = 3 ∧
    (calculate_period_metrics c8ScenarioB).max_loss_streak = 2 := by
  have hmain : ∀ l : List TradeWithDerived,
      (calculate_period_metrics l).max_win_streak =
        (streaksOf (sortTradesByDate l)).mw ∧
      (calculate_period_metrics l).max_loss_streak =
        (streaksOf (sortTradesByDate l)).ml := by
    intro l
    by_cases hemp : l = []
    · subst hemp
      simp [calculate_period_metrics, PeriodMetrics.defaultVal, streaksOf,
        sortTradesByDate, List.insertionSort]
    · have h := pmFold_streaks (sortTradesByDate l) pmInit
      simp only [calculate_period_metrics, if_neg hemp, streaksOf]
      rw [show (⟨0, 0, 0, 0⟩ : StreakAcc) =
        (⟨pmInit.cw, pmInit.cl, pmInit.mw, pmInit.ml⟩ : StreakAcc) from rfl, h]
      exact ⟨rfl, rfl⟩
  refine ⟨(hmain trades).1, (hmain trades).2,
    List.sorted_insertionSort twdLe trades, sortTradesByDate_stable trades,
    ?_, ?_, ?_, ?_⟩ <;> decide

end FTJ

namespace FTJ

/-! ### Skip-unrealized lemmas (claim C10) -/

theorem foldl_dailyStep_filter :
    ∀ (l : List TradeWithDerived) (m : List (Date × DailyPerformance)),
      l.foldl dailyStep m = (l.filter hasNet).foldl dailyStep m
  | [], _ => rfl
  | t :: l, m => by
      rcases hnet : t.net_pnl with _ | net
      · have hh : hasNet t = false := by simp [hasNet, hnet]
        simp only [List.foldl_cons, List.filter_cons, hh, Bool.false_eq_true,
          if_false, dailyStep, hnet]
        exact foldl_dailyStep_filter l m
      · have hh : hasNet t = true := by simp [hasNet, hnet]
        simp only [List.foldl_cons, List.filter_cons, hh, if_true]
        exact foldl_dailyStep_filter l _

theorem foldl_dailyPnlStep_filter :
    ∀ (l : List TradeWithDerived) (m : List (Date × F)),
      l.foldl dailyPnlStep m = (l.filter hasNet).foldl dailyPnlStep m
  | [], _ => rfl
  | t :: l, m => by
      rcases hnet : t.net_pnl with _ | net
      · have hh : hasNet t = false := by simp [hasNet, hnet]
        simp only [List.foldl_cons, List.filter_cons, hh, Bool.false_eq_true,
          if_false, dailyPnlStep, hnet]
        exact foldl_dailyPnlStep_filter l m
      · have hh : hasNet t = true := by simp [hasNet, hnet]
        simp only [List.foldl_cons, List.filter_cons, hh, if_true]
        exact foldl_dailyPnlStep_filter l _

theorem foldl_pmStep_filter :
    ∀ (l : List TradeWithDerived) (s : PMAcc),
      l.foldl pmStep s = (l.filter hasNet).foldl pmStep s
  | [], _ => rfl
  | t :: l, s => by
      rcases hnet : t.net_pnl with _ | net
      · have hh : hasNet t = false := by simp [hasNet, hnet]
        have hstep : pmStep s t = s := by simp [pmStep, hnet]
        simp only [List.foldl_cons, List.filter_cons, hh, Bool.false_eq_true,
          if_false, hstep]
        exact foldl_pmStep_filter l s
      · have hh : hasNet t = true := by simp [hasNet, hnet]
        simp only [List.foldl_cons, List.filter_cons, hh, if_true]
        exact foldl_pmStep_filter l _

theorem dailyPnlMap_filter (trades : List TradeWithDerived) :
    dailyPnlMap trades = dailyPnlMap (trades.filter hasNet) := by
  unfold dailyPnlMap
  exact foldl_dailyPnlStep_filter trades []

theorem calculate_equity_curve_filter (trades : List TradeWithDerived) :
    calculate_equity_curve trades =
      calculate_equity_curve (trades.filter hasNet) := by
  unfold calculate_equity_curve
  rw [dailyPnlMap_filter]

end FTJ

namespace FTJ

/-- C10: each of the three analytics functions returns exactly the same
result on the full trade list as on its sublist of trades whose net P&L is
present — open trades are skipped inside each function and contribute to no
count, sum, streak, curve point, or drawdown. -/
theorem analytics_skip_unrealized (trades : List TradeWithDerived) :
    calculate_daily_metrics trades =
      calculate_daily_metrics (trades.filter hasNet) ∧
    calculate_equity_curve trades =
      calculate_equity_curve (trades.filter hasNet) ∧
    calculate_period_metrics trades =
      calculate_period_metrics (trades.filter hasNet) := by
  refine ⟨?_, calculate_equity_curve_filter trades, ?_⟩
  · unfold calculate_daily_metrics dailyMapOf
    rw [foldl_dailyStep_filter]
  · have hsorted : (sortTradesByDate trades).filter hasNet =
        sortTradesByDate (trades.filter hasNet) := by
      unfold sortTradesByDate
      exact filter_insertionSort_comm twdLe hasNet trades
    have hfold : List.foldl pmStep pmInit (sortTradesByDate trades) =
        List.foldl pmStep pmInit (sortTradesByDate (trades.filter hasNet)) := by
      rw [foldl_pmStep_filter (sortTradesByDate trades) pmInit, hsorted]
    have hcurve : calculate_equity_curve (sortTradesByDate trades) =
        calculate_equity_curve (sortTradesByDate (trades.filter hasNet)) := by
      rw [calculate_equity_curve_filter (sortTradesByDate trades), hsorted]
    by_cases hemp : trades = []
    · subst hemp
      rfl
    · by_cases hfemp : trades.filter hasNet = []
      · rw [hfemp]
        have hfold0 : List.foldl pmStep pmInit (sortTradesByDate trades) =
            pmInit := by
          rw [hfold, hfemp]
          rfl
        have hcurve0 : calculate_equity_curve (sortTradesByDate trades) = [] := by
          rw [hcurve, hfemp]
          rfl
        simp only [calculate_period_metrics, if_neg hemp, if_pos rfl, hfold0,
          hcurve0]
        norm_num [pmInit, PeriodMetrics.defaultVal]
      · simp only [calculate_period_metrics, if_neg hemp, if_neg hfemp]
        rw [hfold, hcurve]

end FTJ

namespace FTJ

set_option maxRecDepth 4096 in
/-- Counterexample to C5 as stated: a recognized stock record with 17
fields (the 16 of the schema, an unparseable FX-rate value, plus one
extra) parses without any error entry, although the claim requires a
`ParseError` for any record failing the 16-field count or a per-field
numeric parse. -/
theorem claimC5FieldCountPred_counterexample : ¬ claimC5FieldCountPred := by
  intro h
  obtain ⟨e, he, _⟩ := h c5Content 0 c5Content (by decide) (by decide)
    (by decide)
  have herr : (parse_tlg_file c5Content).errors = [] := by decide
  rw [herr] at he
  exact absurd he (List.not_mem_nil e)

end FTJ

namespace FTJ

/-! ### Parser characterization (claim C5) -/

theorem parseLinesFrom_characterization :
    ∀ (ls : List (List Char)) (n : Nat),
      parseLinesFrom n ls =
        { executions := ls.filterMap lineExecOf
          errors := (List.enumFrom n ls).filterMap lineErrOf }
  | [], n => rfl
  | l :: ls, n => by
      have ih := parseLinesFrom_characterization ls (n + 1)
      simp only [parseLinesFrom, ih, List.enumFrom, List.filterMap_cons]
      by_cases ht : trimChars l = []
      · simp [lineExecOf, lineErrOf, lineClassify, ht]
      · by_cases hstk : stkTag.isPrefixOf (trimChars l)
        · rcases hp : parse_stock_transaction (trimChars l) with msg | e <;>
            simp [lineExecOf, lineErrOf, lineClassify, ht, hstk, hp]
        · by_cases hopt : optTag.isPrefixOf (trimChars l)
          · rcases hp : parse_option_transaction (trimChars l) with msg | e <;>
              simp [lineExecOf, lineErrOf, lineClassify, ht, hstk, hopt, hp]
          · simp [lineExecOf, lineErrOf, lineClassify, ht, hstk, hopt]

theorem lineErrOf_line_number {p : Nat × List Char} {e : TlgParseError}
    (hp : lineErrOf p = some e) : e.line_number = p.1 := by
  revert hp
  unfold lineErrOf
  rcases lineClassify (trimChars p.2) with _ | r
  · simp
  · rcases r with msg | e'
    · intro h
      rw [Option.some_inj] at h
      rw [← h]
    · simp

theorem map_lineNumber_sublist :
    ∀ ps : List (Nat × List Char),
      ((ps.filterMap lineErrOf).map (·.line_number)).Sublist
        (ps.map Prod.fst)
  | [] => List.Sublist.refl _
  | p :: ps => by
      rcases hp : lineErrOf p with _ | e
      · simp only [List.filterMap_cons, hp, List.map_cons]
        exact (map_lineNumber_sublist ps).cons _
      · simp only [List.filterMap_cons, hp, List.map_cons,
          lineErrOf_line_number hp]
        exact (map_lineNumber_sublist ps).cons₂ _

theorem parse_errors_lineNumbers_nodup (content : List Char) :
    (((parse_tlg_file content).errors).map (·.line_number)).Nodup := by
  rw [parse_tlg_file, parseLinesFrom_characterization]
  refine List.Nodup.sublist (map_lineNumber_sublist _) ?_
  rw [List.enumFrom_map_fst]
  exact List.nodup_range' _ _

end FTJ

namespace FTJ

theorem countP_eq_count_map {α β : Type} [DecidableEq β] (f : α → β)
    (b : β) : ∀ l : List α, l.countP (fun x => f x == b) = (l.map f).count b
  | [] => rfl
  | a :: l => by
      simp only [List.countP_cons, List.map_cons, List.count_cons,
        countP_eq_count_map f b l]

theorem parse_stock_ok_iff (t : List Char) :
    (∃ e, parse_stock_transaction t = .ok e) ↔
      (16 ≤ (splitOnChar '|' t).length ∧
       (TlgAction.fromChars (((splitOnChar '|' t)[5]?).getD [])).isSome = true ∧
       (∃ d, parse_date (((splitOnChar '|' t)[7]?).getD []) = .ok d) ∧
       (parseF64 (((splitOnChar '|' t)[10]?).getD [])).isSome = true ∧
       (parseF64 (((splitOnChar '|' t)[11]?).getD [])).isSome = true ∧
       (parseF64 (((splitOnChar '|' t)[12]?).getD [])).isSome = true ∧
       (parseF64 (((splitOnChar '|' t)[13]?).getD [])).isSome = true ∧
       (parseF64 (((splitOnChar '|' t)[14]?).getD [])).isSome = true) := by
  by_cases hlen : (splitOnChar '|' t).length < 16
  · have h16 : ¬ 16 ≤ (splitOnChar '|' t).length := by omega
    simp [parse_stock_transaction, hlen, h16, Bind.bind, Except.bind,
      Functor.map, Except.map, Pure.pure, Except.pure]
  · have h16 : 16 ≤ (splitOnChar '|' t).length := by omega
    rcases ha : TlgAction.fromChars (((splitOnChar '|' t)[5]?).getD []) with _ | a
    · simp [parse_stock_transaction, hlen, h16, ha, okOr, Bind.bind,
        Except.bind, Functor.map, Except.map, Pure.pure, Except.pure]
    · rcases hd : parse_date (((splitOnChar '|' t)[7]?).getD []) with msg | d
      · simp [parse_stock_transaction, hlen, h16, ha, hd, okOr, Bind.bind,
          Except.bind, Functor.map, Except.map, Pure.pure, Except.pure]
      · rcases h10 : parseF64 (((splitOnChar '|' t)[10]?).getD []) with _ | q
        · simp [parse_stock_transaction, hlen, h16, ha, hd, h10, okOr,
            Bind.bind, Except.bind, Functor.map, Except.map, Pure.pure,
            Except.pure]
        · rcases h11 : parseF64 (((splitOnChar '|' t)[11]?).getD []) with _ | m
          · simp [parse_stock_transaction, hlen, h16, ha, hd, h10, h11, okOr,
              Bind.bind, Except.bind, Functor.map, Except.map, Pure.pure,
              Except.pure]
          · rcases h12 : parseF64 (((splitOnChar '|' t)[12]?).getD []) with _ | p
            · simp [parse_stock_transaction, hlen, h16, ha, hd, h10, h11,
                h12, okOr, Bind.bind, Except.bind, Functor.map, Except.map,
                Pure.pure, Except.pure]
            · rcases h13 : parseF64 (((splitOnChar '|' t)[13]?).getD []) with _ | tot
              · simp [parse_stock_transaction, hlen, h16, ha, hd, h10, h11,
                  h12, h13, okOr, Bind.bind, Except.bind, Functor.map,
                  Except.map, Pure.pure, Except.pure]
              · rcases h14 : parseF64 (((splitOnChar '|' t)[14]?).getD []) with _ | f
                · simp [parse_stock_transaction, hlen, h16, ha, hd, h10, h11,
                    h12, h13, h14, okOr, Bind.bind, Except.bind, Functor.map,
                    Except.map, Pure.pure, Except.pure]
                · simp [parse_stock_transaction, hlen, h16, ha, hd, h10, h11,
                    h12, h13, h14, okOr, Bind.bind, Except.bind, Functor.map,
                    Except.map, Pure.pure, Except.pure]

theorem parse_option_ok_iff (t : List Char) :
    (∃ e, parse_option_transaction t = .ok e) ↔
      (16 ≤ (splitOnChar '|' t).length ∧
       (TlgAction.fromChars (((splitOnChar '|' t)[5]?).getD [])).isSome = true ∧
       (∃ d, parse_date (((splitOnChar '|' t)[7]?).getD []) = .ok d) ∧
       (parseF64 (((splitOnChar '|' t)[10]?).getD [])).isSome = true ∧
       (parseF64 (((splitOnChar '|' t)[11]?).getD [])).isSome = true ∧
       (parseF64 (((splitOnChar '|' t)[12]?).getD [])).isSome = true ∧
       (parseF64 (((splitOnChar '|' t)[13]?).getD [])).isSome = true ∧
       (parseF64 (((splitOnChar '|' t)[14]?).getD [])).isSome = true ∧
       (∃ od, parse_option_symbol (((splitOnChar '|' t)[2]?).getD []) = .ok od)) := by
  by_cases hlen : (splitOnChar '|' t).length < 16
  · have h16 : ¬ 16 ≤ (splitOnChar '|' t).length := by omega
    simp [parse_option_transaction, hlen, h16, Bind.bind, Except.bind,
      Functor.map, Except.map, Pure.pure, Except.pure]
  · have h16 : 16 ≤ (splitOnChar '|' t).length := by omega
    rcases ha : TlgAction.fromChars (((splitOnChar '|' t)[5]?).getD []) with _ | a
    · simp [parse_option_transaction, hlen, h16, ha, okOr, Bind.bind,
        Except.bind, Functor.map, Except.map, Pure.pure, Except.pure]
    · rcases hd : parse_date (((splitOnChar '|' t)[7]?).getD []) with msg | d
      · simp [parse_option_transaction, hlen, h16, ha, hd, okOr, Bind.bind,
          Except.bind, Functor.map, Except.map, Pure.pure, Except.pure]
      · rcases h10 : parseF64 (((splitOnChar '|' t)[10]?).getD []) with _ | q
        · simp [parse_option_transaction, hlen, h16, ha, hd, h10, okOr,
            Bind.bind, Except.bind, Functor.map, Except.map, Pure.pure,
            Except.pure]
        · rcases h11 : parseF64 (((splitOnChar '|' t)[11]?).getD []) with _ | m
          · simp [parse_option_transaction, hlen, h16, ha, hd, h10, h11, okOr,
              Bind.bind, Except.bind, Functor.map, Except.map, Pure.pure,
              Except.pure]
          · rcases h12 : parseF64 (((splitOnChar '|' t)[12]?).getD []) with _ | p
            · simp [parse_option_transaction, hlen, h16, ha, hd, h10, h11,
                h12, okOr, Bind.bind, Except.bind, Functor.map, Except.map,
                Pure.pure, Except.pure]
            · rcases h13 : parseF64 (((splitOnChar '|' t)[13]?).getD []) with _ | tot
              · simp [parse_option_transaction, hlen, h16, ha, hd, h10, h11,
                  h12, h13, okOr, Bind.bind, Except.bind, Functor.map,
                  Except.map, Pure.pure, Except.pure]
              · rcases h14 : parseF64 (((splitOnChar '|' t)[14]?).getD []) with _ | f
                · simp [parse_option_transaction, hlen, h16, ha, hd, h10, h11,
                    h12, h13, h14, okOr, Bind.bind, Except.bind, Functor.map,
                    Except.map, Pure.pure, Except.pure]
                · rcases hos : parse_option_symbol (((splitOnChar '|' t)[2]?).getD [])
                    with msg | od
                  · simp [parse_option_transaction, hlen, h16, ha, hd, h10,
                      h11, h12, h13, h14, hos, okOr, Bind.bind, Except.bind,
                      Functor.map, Except.map, Pure.pure, Except.pure]
                  · simp [parse_option_transaction, hlen, h16, ha, hd, h10,
                      h11, h12, h13, h14, hos, okOr, Bind.bind, Except.bind,
                      Functor.map, Except.map, Pure.pure, Except.pure]

end FTJ

namespace FTJ

/-- C5: Amended parser error-handling contract. Parsing one TLG file (a)
processes every line independently: the executions are exactly the
successful per-line parses in order and the errors are exactly the failing
lines' entries, so a failing line never halts processing and a malformed
record never reaches the output; (b) every failing line contributes exactly
one error entry carrying its 1-based line number, its trimmed content and
the failure reason; (c) a stock record parses successfully iff it has at
least 16 pipe-separated fields (extra fields are ignored, and an
unparseable FX rate in field 15 does not fail the record) with a known
action, a valid date and numeric quantity/multiplier/price/amount/fee; (d)
an option record additionally requires a decodable OCC contract symbol. -/
theorem parse_tlg_file_error_handling (content : List Char) :
    parse_tlg_file content =
      { executions := (rustLines content).filterMap lineExecOf
        errors := (List.enumFrom 1 (rustLines content)).filterMap lineErrOf } ∧
    (∀ i l msg, (rustLines content)[i]? = some l →
      lineClassify (trimChars l) = some (.error msg) →
      ({ line_number := 1 + i, line_content := trimChars l, error := msg } :
          TlgParseError) ∈ (parse_tlg_file content).errors ∧
      (parse_tlg_file content).errors.countP
        (fun e => e.line_number == 1 + i) = 1) ∧
    (∀ t, (∃ e, parse_stock_transaction t = .ok e) ↔
      (16 ≤ (splitOnChar '|' t).length ∧
       (TlgAction.fromChars (((splitOnChar '|' t)[5]?).getD [])).isSome = true ∧
       (∃ d, parse_date (((splitOnChar '|' t)[7]?).getD []) = .ok d) ∧
       (parseF64 (((splitOnChar '|' t)[10]?).getD [])).isSome = true ∧
       (parseF64 (((splitOnChar '|' t)[11]?).getD [])).isSome = true ∧
       (parseF64 (((splitOnChar '|' t)[12]?).getD [])).isSome = true ∧
       (parseF64 (((splitOnChar '|' t)[13]?).getD [])).isSome = true ∧
       (parseF64 (((splitOnChar '|' t)[14]?).getD [])).isSome = true)) ∧
    (∀ t, (∃ e, parse_option_transaction t = .ok e) ↔
      (16 ≤ (splitOnChar '|' t).length ∧
       (TlgAction.fromChars (((splitOnChar '|' t)[5]?).getD [])).isSome = true ∧
       (∃ d, parse_date (((splitOnChar '|' t)[7]?).getD []) = .ok d) ∧
       (parseF64 (((splitOnChar '|' t)[10]?).getD [])).isSome = true ∧
       (parseF64 (((splitOnChar '|' t)[11]?).getD [])).isSome = true ∧
       (parseF64 (((splitOnChar '|' t)[12]?).getD [])).isSome = true ∧
       (parseF64 (((splitOnChar '|' t)[13]?).getD [])).isSome = true ∧
       (parseF64 (((splitOnChar '|' t)[14]?).getD [])).isSome = true ∧
       (∃ od, parse_option_symbol (((splitOnChar '|' t)[2]?).getD []) = .ok od))) := by
  refine ⟨?_, ?_, parse_stock_ok_iff, parse_option_ok_iff⟩
  · rw [parse_tlg_file, parseLinesFrom_characterization]
  · intro i l msg hl hcls
    have hchar : (parse_tlg_file content).errors
        = (List.enumFrom 1 (rustLines content)).filterMap lineErrOf := by
      rw [parse_tlg_file, parseLinesFrom_characterization]
    have hpin : (List.enumFrom 1 (rustLines content))[i]? = some (1 + i, l) := by
      rw [List.getElem?_enumFrom, hl]
      rfl
    have hmem : (1 + i, l) ∈ List.enumFrom 1 (rustLines content) :=
      List.getElem?_mem hpin
    have herr : lineErrOf (1 + i, l)
        = some { line_number := 1 + i, line_content := trimChars l
                 error := msg } := by
      simp [lineErrOf, hcls]
    constructor
    · rw [hchar]
      exact List.mem_filterMap.mpr ⟨(1 + i, l), hmem, herr⟩
    · rw [countP_eq_count_map (fun e : TlgParseError => e.line_number) (1 + i)]
      refine List.count_eq_one_of_mem (parse_errors_lineNumbers_nodup content) ?_
      rw [hchar]
      exact List.mem_map.mpr
        ⟨_, List.mem_filterMap.mpr ⟨(1 + i, l), hmem, herr⟩, rfl⟩

/-- Witness for C5 at a two-line file whose first line has only 3 fields:
that line yields exactly one error entry with line number 1, trimmed
content and the field-count reason. -/
theorem parse_tlg_file_error_handling_witness :
    ({ line_number := 1, line_content := "STK_TRD|1|AAPL".toList,
       error := "Invalid stock transaction: expected 16 fields, got 3" } :
        TlgParseError) ∈ (parse_tlg_file c5WitnessContent).errors ∧
    (parse_tlg_file c5WitnessContent).errors.countP
      (fun e => e.line_number == 1) = 1 := by
  have h := (parse_tlg_file_error_handling c5WitnessContent).2.1 0
    ("STK_TRD|1|AAPL".toList)
    "Invalid stock transaction: expected 16 fields, got 3"
    (by decide) (by rfl)
  simpa using h

end FTJ

namespace FTJ

theorem trimChars_nil : trimChars [] = [] := rfl

theorem parseNatRaw_digits {s : List Char} (h1 : s ≠ [])
    (h2 : s.all (·.isDigit) = true) : parseNatRaw s = some (digitsVal s) := by
  simp [parseNatRaw, h1, h2]

theorem parseU32_digits {s : List Char} (h1 : s ≠ [])
    (h2 : s.all (·.isDigit) = true) : parseU32 s = some (digitsVal s) := by
  rcases s with _ | ⟨c, r⟩
  · exact absurd rfl h1
  · have hc : c.isDigit = true := by
      simp only [List.all_cons, Bool.and_eq_true] at h2
      exact h2.1
    rw [parseU32.eq_def]
    split
    · rename_i r' heq
      rw [List.cons.injEq] at heq
      rw [heq.1] at hc
      exact absurd hc (by decide)
    · exact parseNatRaw_digits h1 h2

theorem parseI32_digits {s : List Char} (h1 : s ≠ [])
    (h2 : s.all (·.isDigit) = true) :
    parseI32 s = some ((digitsVal s : Int)) := by
  rcases s with _ | ⟨c, r⟩
  · exact absurd rfl h1
  · have hc : c.isDigit = true := by
      simp only [List.all_cons, Bool.and_eq_true] at h2
      exact h2.1
    rw [parseI32.eq_def]
    split
    · rename_i r' heq
      rw [List.cons.injEq] at heq
      rw [heq.1] at hc
      exact absurd hc (by decide)
    · rename_i r' heq
      rw [List.cons.injEq] at heq
      rw [heq.1] at hc
      exact absurd hc (by decide)
    · rw [parseNatRaw_digits h1 h2]
      rfl

theorem all_take_of_all {p : Char → Bool} {l : List Char} (n : Nat)
    (h : l.all p = true) : (l.take n).all p = true := by
  rw [List.all_eq_true] at h ⊢
  exact fun x hx => h x (List.mem_of_mem_take hx)

theorem all_drop_of_all {p : Char → Bool} {l : List Char} (n : Nat)
    (h : l.all p = true) : (l.drop n).all p = true := by
  rw [List.all_eq_true] at h ⊢
  exact fun x hx => h x (List.mem_of_mem_drop hx)

theorem isPatternAt_facts {t : List Char} {i : Nat}
    (h : isPatternAt t i = true) :
    i + 7 ≤ t.length ∧ ((t.drop i).take 6).all (·.isDigit) = true ∧
      (t[i + 6]? = some 'C' ∨ t[i + 6]? = some 'P') := by
  unfold isPatternAt at h
  simp only [Bool.and_eq_true, Bool.or_eq_true, decide_eq_true_eq,
    beq_iff_eq] at h
  exact ⟨h.1.1, h.1.2, h.2⟩

end FTJ

namespace FTJ

/-- C6: Amended option-symbol decoding. After the source's minimum-length
guard (a trimmed symbol of fewer than 15 characters is rejected even when
the pattern scan would succeed), the decoder succeeds exactly as the
claim's algorithm describes: the first index where a 6-digit run is
followed by `C` or `P` splits the symbol into trimmed underlying (which
must be nonempty), expiry with the 2-digit year mapped to 2000+YY (the
calendar date must be valid), option type, and a strike suffix parsed as a
number then divided by 1000; every other case is an error. -/
theorem parse_option_symbol_refines (s : List Char) (d : OptionDetails) :
    parse_option_symbol s = .ok d ↔ specDecodeAmended s = some d := by
  unfold parse_option_symbol specDecodeAmended specDecodeClaim
  by_cases hlen : (trimChars s).length < 15
  · simp [hlen, Bind.bind, Except.bind, Pure.pure, Except.pure]
  · rcases hf : findPatternIdx (trimChars s) with _ | i
    · simp [hlen, hf, Bind.bind, Except.bind, Pure.pure, Except.pure]
    · rcases Nat.eq_zero_or_pos i with hi0 | hipos
      · subst hi0
        simp [hlen, hf, trimChars_nil, Bind.bind, Except.bind, Pure.pure,
          Except.pure]
      · have hi0 : i ≠ 0 := Nat.pos_iff_ne_zero.mp hipos
        have hpat : isPatternAt (trimChars s) i = true := List.find?_some hf
        obtain ⟨hle, hdig, hCP⟩ := isPatternAt_facts hpat
        by_cases hund : trimChars ((trimChars s).take i) = []
        · simp [hlen, hf, hi0, hund, Bind.bind, Except.bind, Pure.pure,
            Except.pure]
        · have hlends : (((trimChars s).drop i).take 6).length = 6 := by
            rw [List.length_take, List.length_drop]
            omega
          have hy1 : ((((trimChars s).drop i).take 6).take 2).length = 2 := by
            simp only [List.length_take, hlends]
            omega
          have hm1 : (((((trimChars s).drop i).take 6).drop 2).take 2).length
              = 2 := by
            simp only [List.length_take, List.length_drop, hlends]
            omega
          have hd1 : (((((trimChars s).drop i).take 6).drop 4).take 2).length
              = 2 := by
            simp only [List.length_take, List.length_drop, hlends]
            omega
          have hyd := parseI32_digits (List.length_pos.mp (by omega))
            (all_take_of_all 2 hdig)
          have hmd := parseU32_digits (List.length_pos.mp (by omega))
            (all_take_of_all 2 (all_drop_of_all 2 hdig))
          have hdd := parseU32_digits (List.length_pos.mp (by omega))
            (all_take_of_all 2 (all_drop_of_all 4 hdig))
          rcases hfy : fromYmd
              (2000 + (digitsVal ((((trimChars s).drop i).take 6).take 2) : Int))
              (digitsVal (((((trimChars s).drop i).take 6).drop 2).take 2))
              (digitsVal (((((trimChars s).drop i).take 6).drop 4).take 2))
              with _ | expiry
          · simp [hlen, hf, hi0, hund, hyd, hmd, hdd, hfy, okOr, Bind.bind,
              Except.bind, Pure.pure, Except.pure]
          · rcases hstr : parseF64 ((trimChars s).drop (i + 7)) with _ | raw
            · rcases hCP with hC | hP
              · simp [hlen, hf, hi0, hund, hyd, hmd, hdd, hfy, hC, hstr,
                  okOr, Bind.bind, Except.bind, Pure.pure, Except.pure]
              · simp [hlen, hf, hi0, hund, hyd, hmd, hdd, hfy, hP, hstr,
                  okOr, Bind.bind, Except.bind, Pure.pure, Except.pure]
            · rcases hCP with hC | hP
              · simp [hlen, hf, hi0, hund, hyd, hmd, hdd, hfy, hC, hstr,
                  okOr, Bind.bind, Except.bind, Pure.pure, Except.pure]
              · simp [hlen, hf, hi0, hund, hyd, hmd, hdd, hfy, hP, hstr,
                  okOr, Bind.bind, Except.bind, Pure.pure, Except.pure]

end FTJ

namespace FTJ

/-- C6 counterexample: on the 10-character symbol `AB250905C5` the claim's
algorithm succeeds (underlying `AB`, expiry 2025-09-05, call, strike
0.005) but the source rejects any trimmed symbol shorter than 15
characters, so the claimed iff fails. -/
theorem claimC6Pred_counterexample : ¬ claimC6Pred := by
  intro h
  have htr : trimChars c6Short = c6Short := by decide
  have hfp : findPatternIdx c6Short = some 2 := by decide
  have hd : specDecodeClaim c6Short = some c6Details := by
    have e1 : trimChars (List.take 2 c6Short) = ['A', 'B'] := by decide
    have e2 : fromYmd
        (2000 + (digitsVal (List.take 2 (List.take 6 (List.drop 2 c6Short))) : Int))
        (digitsVal (List.take 2 (List.drop 2 (List.take 6 (List.drop 2 c6Short)))))
        (digitsVal (List.take 2 (List.drop 4 (List.take 6 (List.drop 2 c6Short)))))
        = some { y := 2025, m := 9, d := 5 } := by decide
    have e3 : c6Short[8]? = some 'C' := by decide
    have e4 : parseF64 (List.drop 9 c6Short) = some ((5 : Nat) : F) := by rfl
    simp only [specDecodeClaim, htr, hfp]
    norm_num [e1, e2, e3, e4, c6Details]
    intro hAB
    exact absurd hAB (by decide)
  have hok := (h c6Short c6Details).mpr hd
  have herr : parse_option_symbol c6Short =
      Except.error ("Invalid option contract symbol: "
        ++ String.mk (trimChars c6Short) ++ " (too short)") := by
    rfl
  rw [herr] at hok
  exact Except.noConfusion hok

end FTJ

namespace FTJ

/-- Witness for C6 on the standard-length symbol `AAPL240119C00195000`:
both the source decoder and the amended algorithm yield underlying `AAPL`,
expiry 2024-01-19, call, strike 195. -/
theorem parse_option_symbol_refines_witness :
    parse_option_symbol c6WitnessSym = .ok c6WitnessDetails := by
  refine (parse_option_symbol_refines c6WitnessSym c6WitnessDetails).mpr ?_
  have htr : trimChars c6WitnessSym = c6WitnessSym := by decide
  have e0 : ¬ (trimChars c6WitnessSym).length < 15 := by decide
  have hfp : findPatternIdx c6WitnessSym = some 4 := by decide
  have e1 : trimChars (List.take 4 c6WitnessSym) = ['A', 'A', 'P', 'L'] := by
    decide
  have e2 : fromYmd
      (2000 + (digitsVal (List.take 2 (List.take 6 (List.drop 4 c6WitnessSym))) : Int))
      (digitsVal (List.take 2 (List.drop 2 (List.take 6 (List.drop 4 c6WitnessSym)))))
      (digitsVal (List.take 2 (List.drop 4 (List.take 6 (List.drop 4 c6WitnessSym)))))
      = some { y := 2024, m := 1, d := 19 } := by decide
  have e3 : c6WitnessSym[10]? = some 'C' := by decide
  have e4 : parseF64 (List.drop 11 c6WitnessSym) = some ((195000 : Nat) : F) := by
    rfl
  simp only [specDecodeAmended, specDecodeClaim, htr, hfp, e0]
  norm_num [e1, e2, e3, e4, c6WitnessDetails]
  exact ⟨by decide, fun hAAPL => absurd hAAPL (by decide)⟩

end FTJ

namespace FTJ

theorem calculate_derived_preserves (a : AggregatedTrade) :
    a.calculate_derived.entries = a.entries ∧
      a.calculate_derived.exits = a.exits := by
  simp only [AggregatedTrade.calculate_derived]
  split
  · exact ⟨rfl, rfl⟩
  · exact ⟨rfl, rfl⟩

theorem calculate_derived_status (a : AggregatedTrade) :
    (a.calculate_derived.status = "closed" ↔
      sumExitQty a ≥ sumEntryQty a ∧ a.exits ≠ []) ∧
    (a.calculate_derived.status = "closed" ∨
      a.calculate_derived.status = "open") := by
  by_cases h : sumExitQty a ≥ sumEntryQty a ∧ a.exits ≠ []
  · have h' := h
    simp only [sumExitQty, sumEntryQty] at h'
    have hs : a.calculate_derived.status = "closed" := by
      simp only [AggregatedTrade.calculate_derived]
      rw [if_pos h']
    exact ⟨⟨fun _ => h, fun _ => hs⟩, .inl hs⟩
  · have h' := h
    simp only [sumExitQty, sumEntryQty] at h'
    have hs : a.calculate_derived.status = "open" := by
      simp only [AggregatedTrade.calculate_derived]
      rw [if_neg h']
    exact ⟨⟨fun hc => absurd (hs.symm.trans hc) (by decide),
      fun hc => absurd hc h⟩, .inr hs⟩

theorem to_aggregated_trade_is_derived (tr : PositionTracker) :
    ∃ a, tr.to_aggregated_trade = AggregatedTrade.calculate_derived a :=
  ⟨_, rfl⟩

set_option maxRecDepth 40000 in
theorem c1_eval_trackers :
    (parse_and_aggregate c1Content).1 =
      (List.insertionSort aggLe
        (List.filter (fun t => t.status == "closed") [c1Trade]),
       List.insertionSort aggLe
        (List.filter (fun t => !(t.status == "closed")) [c1Trade])) := by
  rfl

set_option maxRecDepth 40000 in
theorem c1_eval_entry_qty :
    c1Tracker.entries.map TlgExecution.abs_quantity = [|(((100 : Nat)) : F)|]
      ∧ c1Tracker.exits.map TlgExecution.abs_quantity
        = [|(-(((200 : Nat)) : F))|] := by
  exact ⟨rfl, rfl⟩

end FTJ

namespace FTJ

theorem to_agg_qty (tr : PositionTracker) :
    tr.to_aggregated_trade.entries.map (fun x => x.quantity)
        = tr.entries.map TlgExecution.abs_quantity ∧
    tr.to_aggregated_trade.exits.map (fun x => x.quantity)
        = tr.exits.map TlgExecution.abs_quantity ∧
    (tr.to_aggregated_trade.exits = [] ↔ tr.exits = []) := by
  simp only [PositionTracker.to_aggregated_trade]
  rw [(calculate_derived_preserves _).1, (calculate_derived_preserves _).2]
  refine ⟨?_, ?_, ?_⟩
  · simp [List.map_map, Function.comp]
  · simp [List.map_map, Function.comp]
  · simp

theorem output_mem_derived {content : List Char} {ord : List (List Char)}
    {t : AggregatedTrade}
    (h : t ∈ (parse_and_aggregate_with_order content ord).1.1 ∨
         t ∈ (parse_and_aggregate_with_order content ord).1.2) :
    ∃ a, t = AggregatedTrade.calculate_derived a := by
  simp only [parse_and_aggregate_with_order, aggOutputs] at h
  rcases h with h | h <;>
  · have h1 := (List.perm_insertionSort aggLe _).mem_iff.mp h
    have h2 := List.mem_of_mem_filter h1
    obtain ⟨tr, -, htr⟩ := List.mem_map.mp h2
    obtain ⟨a, ha⟩ := to_aggregated_trade_is_derived tr
    refine ⟨a, ?_⟩
    rw [← htr]
    exact ha

end FTJ

namespace FTJ

/-- C1 (amended): every aggregated trade the import aggregation outputs —
in the closed-trades or the open-positions list, under any iteration order
of the symbol map — has status "closed" exactly when its summed exit
quantity is at least its summed entry quantity AND it has at least one
exit; there is no epsilon tolerance, no requirement that an entry exists,
and an overshooting exit quantity still counts as closed.  Every other
trade (including the degenerate zero-entries bucket, which does not panic)
has status "open", and no third status occurs. -/
theorem parse_and_aggregate_status (content : List Char)
    (ord : List (List Char)) (t : AggregatedTrade)
    (h : t ∈ (parse_and_aggregate_with_order content ord).1.1 ∨
         t ∈ (parse_and_aggregate_with_order content ord).1.2) :
    (t.status = "closed" ↔ sumExitQty t ≥ sumEntryQty t ∧ t.exits ≠ []) ∧
    (t.status = "closed" ∨ t.status = "open") := by
  obtain ⟨a, rfl⟩ := output_mem_derived h
  obtain ⟨he, hx⟩ := calculate_derived_preserves a
  have hst := calculate_derived_status a
  simp only [sumExitQty, sumEntryQty] at hst ⊢
  rw [he, hx]
  exact hst

end FTJ

namespace FTJ

/-- C1 counterexample: the stream `c1Content` opens 100 shares and closes
200, so the exited quantity misses the entered quantity by 100 — far
beyond the claim's 1e-4 epsilon — yet the produced trade is in the
closed-trades list with status "closed", refuting the claimed iff. -/
theorem claimC1Pred_counterexample :
    c1Trade ∈ (parse_and_aggregate c1Content).1.1 ∧ ¬ claimC1Pred c1Trade := by
  obtain ⟨hq1, hq2⟩ := c1_eval_entry_qty
  obtain ⟨hm1, hm2, hm3⟩ := to_agg_qty c1Tracker
  have hm1' : c1Trade.entries.map (fun x => x.quantity)
      = c1Tracker.entries.map TlgExecution.abs_quantity := hm1
  have hm2' : c1Trade.exits.map (fun x => x.quantity)
      = c1Tracker.exits.map TlgExecution.abs_quantity := hm2
  have hsE : sumEntryQty c1Trade = 100 := by
    simp only [sumEntryQty]
    rw [hm1', hq1]
    norm_num
  have hsX : sumExitQty c1Trade = 200 := by
    simp only [sumExitQty]
    rw [hm2', hq2]
    norm_num [abs_neg, Nat.abs_cast]
  have htrx : c1Tracker.exits ≠ [] := by
    intro h0
    rw [h0] at hq2
    exact absurd hq2 (by simp)
  have hxne : c1Trade.exits ≠ [] := fun h0 => htrx (hm3.mp h0)
  obtain ⟨a, ha⟩ := to_aggregated_trade_is_derived c1Tracker
  have ha' : c1Trade = AggregatedTrade.calculate_derived a := ha
  obtain ⟨hpe, hpx⟩ := calculate_derived_preserves a
  have haE : c1Trade.entries = a.entries := by
    rw [ha']
    exact hpe
  have haX : c1Trade.exits = a.exits := by
    rw [ha']
    exact hpx
  have e1 : sumExitQty a = sumExitQty c1Trade := by
    simp only [sumExitQty]
    rw [haX]
  have e2 : sumEntryQty a = sumEntryQty c1Trade := by
    simp only [sumEntryQty]
    rw [haE]
  have hclosed : c1Trade.status = "closed" := by
    rw [ha']
    refine ((calculate_derived_status a).1).mpr ⟨?_, ?_⟩
    · rw [e1, e2, hsE, hsX]
      norm_num
    · rw [← haX]
      exact hxne
  have hmem : c1Trade ∈ (parse_and_aggregate c1Content).1.1 := by
    have hpair := congrArg Prod.fst c1_eval_trackers
    rw [hpair]
    have hflt : List.filter (fun t => t.status == "closed") [c1Trade]
        = [c1Trade] := by
      simp [List.filter_cons, hclosed]
    rw [hflt]
    simp [List.insertionSort, List.orderedInsert]
  refine ⟨hmem, fun hpred => ?_⟩
  obtain ⟨habs, -, -⟩ := hpred.mp hclosed
  rw [hsX, hsE] at habs
  norm_num at habs

end FTJ

namespace FTJ

set_option maxRecDepth 40000 in
theorem c1w_eval_trackers :
    (parse_and_aggregate c1WitnessContent).1 =
      (List.insertionSort aggLe
        (List.filter (fun t => t.status == "closed") [c1WitnessTrade]),
       List.insertionSort aggLe
        (List.filter (fun t => !(t.status == "closed")) [c1WitnessTrade])) := by
  rfl

set_option maxRecDepth 40000 in
theorem c1w_eval_qty :
    c1WitnessTracker.entries.map TlgExecution.abs_quantity
        = [|(((100 : Nat)) : F)|] ∧
      c1WitnessTracker.exits.map TlgExecution.abs_quantity
        = [|(-(((100 : Nat)) : F))|] := by
  exact ⟨rfl, rfl⟩

/-- Witness for C1 at a matched 100-share open/close pair: the aggregated
trade is closed, with exit quantity 100 meeting entry quantity 100 and a
nonempty exit list. -/
theorem parse_and_aggregate_status_witness :
    (c1WitnessTrade.status = "closed" ↔
      sumExitQty c1WitnessTrade ≥ sumEntryQty c1WitnessTrade ∧
        c1WitnessTrade.exits ≠ []) ∧
    (c1WitnessTrade.status = "closed" ∨ c1WitnessTrade.status = "open") := by
  refine parse_and_aggregate_status c1WitnessContent
    (trackerKeys c1WitnessContent) c1WitnessTrade (.inl ?_)
  show c1WitnessTrade ∈ (parse_and_aggregate c1WitnessContent).1.1
  obtain ⟨hq1, hq2⟩ := c1w_eval_qty
  obtain ⟨hm1, hm2, hm3⟩ := to_agg_qty c1WitnessTracker
  have hm1' : c1WitnessTrade.entries.map (fun x => x.quantity)
      = c1WitnessTracker.entries.map TlgExecution.abs_quantity := hm1
  have hm2' : c1WitnessTrade.exits.map (fun x => x.quantity)
      = c1WitnessTracker.exits.map TlgExecution.abs_quantity := hm2
  have hsE : sumEntryQty c1WitnessTrade = 100 := by
    simp only [sumEntryQty]
    rw [hm1', hq1]
    norm_num
  have hsX : sumExitQty c1WitnessTrade = 100 := by
    simp only [sumExitQty]
    rw [hm2', hq2]
    norm_num [abs_neg, Nat.abs_cast]
  have htrx : c1WitnessTracker.exits ≠ [] := by
    intro h0
    rw [h0] at hq2
    exact absurd hq2 (by simp)
  have hxne : c1WitnessTrade.exits ≠ [] := fun h0 => htrx (hm3.mp h0)
  obtain ⟨a, ha⟩ := to_aggregated_trade_is_derived c1WitnessTracker
  have ha' : c1WitnessTrade = AggregatedTrade.calculate_derived a := ha
  obtain ⟨hpe, hpx⟩ := calculate_derived_preserves a
  have haE : c1WitnessTrade.entries = a.entries := by
    rw [ha']
    exact hpe
  have haX : c1WitnessTrade.exits = a.exits := by
    rw [ha']
    exact hpx
  have e1 : sumExitQty a = sumExitQty c1WitnessTrade := by
    simp only [sumExitQty]
    rw [haX]
  have e2 : sumEntryQty a = sumEntryQty c1WitnessTrade := by
    simp only [sumEntryQty]
    rw [haE]
  have hclosed : c1WitnessTrade.status = "closed" := by
    rw [ha']
    refine ((calculate_derived_status a).1).mpr ⟨?_, ?_⟩
    · rw [e1, e2, hsE, hsX]
    · rw [← haX]
      exact hxne
  have hpair := congrArg Prod.fst c1w_eval_trackers
  rw [hpair]
  have hflt : List.filter (fun t => t.status == "closed") [c1WitnessTrade]
      = [c1WitnessTrade] := by
    simp [List.filter_cons, hclosed]
  rw [hflt]
  simp [List.insertionSort, List.orderedInsert]

end FTJ

namespace FTJ

theorem calculate_derived_preserves_more (a : AggregatedTrade) :
    a.calculate_derived.symbol = a.symbol ∧
      a.calculate_derived.trade_date = a.trade_date := by
  simp only [AggregatedTrade.calculate_derived]
  split
  · exact ⟨rfl, rfl⟩
  · exact ⟨rfl, rfl⟩

theorem to_agg_symbol_date (tr : PositionTracker) :
    tr.to_aggregated_trade.symbol = tr.symbol ∧
    tr.to_aggregated_trade.trade_date
      = ((tr.entries.head?.map (·.execution_date)).getD ⟨1970, 1, 1⟩) := by
  simp only [PositionTracker.to_aggregated_trade]
  rw [(calculate_derived_preserves_more _).1,
    (calculate_derived_preserves_more _).2]
  refine ⟨rfl, ?_⟩
  simp [List.head?_map, Option.map_map, Function.comp_def]

theorem to_agg_closed_of (tr : PositionTracker)
    (h1 : (tr.entries.map TlgExecution.abs_quantity).sum ≤
      (tr.exits.map TlgExecution.abs_quantity).sum)
    (h2 : tr.exits ≠ []) :
    tr.to_aggregated_trade.status = "closed" := by
  obtain ⟨hm1, hm2, hm3⟩ := to_agg_qty tr
  obtain ⟨a, ha⟩ := to_aggregated_trade_is_derived tr
  obtain ⟨hpe, hpx⟩ := calculate_derived_preserves a
  have e1 : a.entries = tr.to_aggregated_trade.entries := by
    rw [ha]
    exact hpe.symm
  have e2 : a.exits = tr.to_aggregated_trade.exits := by
    rw [ha]
    exact hpx.symm
  rw [ha]
  refine ((calculate_derived_status a).1).mpr ⟨?_, ?_⟩
  · simp only [sumExitQty, sumEntryQty]
    rw [e1, e2, hm1, hm2]
    exact h1
  · intro h0
    have hta : tr.to_aggregated_trade.exits = [] := by
      rw [ha, hpx]
      exact h0
    exact h2 (hm3.mp hta)

end FTJ

namespace FTJ

set_option maxRecDepth 80000 in
theorem c9_eval_order1 :
    parse_and_aggregate_with_order c9Content c9Order1 =
      (aggOutputs [c9TrA, c9TrM], []) := by
  rfl

set_option maxRecDepth 80000 in
theorem c9_eval_order2 :
    parse_and_aggregate_with_order c9Content c9Order2 =
      (aggOutputs [c9TrM, c9TrA], []) := by
  rfl

set_option maxRecDepth 80000 in
theorem c9_eval_keys :
    trackerKeys c9Content = ["AAPL".toList, "MSFT".toList] := by
  rfl

set_option maxRecDepth 80000 in
theorem c9_eval_qty :
    c9TrA.entries.map TlgExecution.abs_quantity = [|(((100 : Nat)) : F)|] ∧
    c9TrA.exits.map TlgExecution.abs_quantity = [|(-(((100 : Nat)) : F))|] ∧
    c9TrM.entries.map TlgExecution.abs_quantity = [|(((50 : Nat)) : F)|] ∧
    c9TrM.exits.map TlgExecution.abs_quantity = [|(-(((50 : Nat)) : F))|] := by
  exact ⟨rfl, rfl, rfl, rfl⟩

set_option maxRecDepth 80000 in
theorem c9_eval_meta :
    c9TrA.symbol = "AAPL".toList ∧ c9TrM.symbol = "MSFT".toList ∧
    (c9TrA.entries.head?.map (·.execution_date)).getD ⟨1970, 1, 1⟩
      = ⟨2024, 1, 1⟩ ∧
    (c9TrM.entries.head?.map (·.execution_date)).getD ⟨1970, 1, 1⟩
      = ⟨2024, 1, 1⟩ := by
  exact ⟨rfl, rfl, rfl, rfl⟩

end FTJ

namespace FTJ

set_option maxRecDepth 80000 in
/-- C9: determinism fails for the aggregation stage.  The parser itself is
a pure function of the input, but `parse_and_aggregate` iterates a
`HashMap` whose per-instance random seed makes the visit order of the
symbol buckets run-dependent, and the final sort keys on the trade date
alone, so trades sharing a date keep the arbitrary visit order: the two
realizable key orders of `c9Content` (both permutations of its tracker
keys) yield different outputs on identical input. -/
theorem parse_and_aggregate_order_dependent :
    List.Perm c9Order1 (trackerKeys c9Content) ∧
    List.Perm c9Order2 (trackerKeys c9Content) ∧
    parse_and_aggregate_with_order c9Content c9Order1 ≠
      parse_and_aggregate_with_order c9Content c9Order2 := by
  obtain ⟨hqA1, hqA2, hqM1, hqM2⟩ := c9_eval_qty
  obtain ⟨hsA, hsM, hdA0, hdM0⟩ := c9_eval_meta
  have hclA : c9TradeA.status = "closed" := by
    refine to_agg_closed_of c9TrA ?_ ?_
    · rw [hqA1, hqA2]
      norm_num [abs_neg, Nat.abs_cast]
    · intro h0
      rw [h0] at hqA2
      exact absurd hqA2 (by simp)
  have hclM : c9TradeM.status = "closed" := by
    refine to_agg_closed_of c9TrM ?_ ?_
    · rw [hqM1, hqM2]
      norm_num [abs_neg, Nat.abs_cast]
    · intro h0
      rw [h0] at hqM2
      exact absurd hqM2 (by simp)
  have hsymA : c9TradeA.symbol = "AAPL".toList :=
    ((to_agg_symbol_date c9TrA).1).trans hsA
  have hsymM : c9TradeM.symbol = "MSFT".toList :=
    ((to_agg_symbol_date c9TrM).1).trans hsM
  have hdA : c9TradeA.trade_date = ⟨2024, 1, 1⟩ :=
    ((to_agg_symbol_date c9TrA).2).trans hdA0
  have hdM : c9TradeM.trade_date = ⟨2024, 1, 1⟩ :=
    ((to_agg_symbol_date c9TrM).2).trans hdM0
  have haggAM : aggLe c9TradeA c9TradeM := by
    unfold aggLe
    rw [hdA, hdM]
    exact refl_of Date.le _
  have haggMA : aggLe c9TradeM c9TradeA := by
    unfold aggLe
    rw [hdA, hdM]
    exact refl_of Date.le _
  have hmap1 : List.map PositionTracker.to_aggregated_trade [c9TrA, c9TrM]
      = [c9TradeA, c9TradeM] := rfl
  have hmap2 : List.map PositionTracker.to_aggregated_trade [c9TrM, c9TrA]
      = [c9TradeM, c9TradeA] := rfl
  have closed1 : (aggOutputs [c9TrA, c9TrM]).1 = [c9TradeA, c9TradeM] := by
    simp only [aggOutputs]
    rw [hmap1]
    simp [List.filter_cons, hclA, hclM, List.insertionSort,
      List.orderedInsert, haggAM]
  have closed2 : (aggOutputs [c9TrM, c9TrA]).1 = [c9TradeM, c9TradeA] := by
    simp only [aggOutputs]
    rw [hmap2]
    simp [List.filter_cons, hclA, hclM, List.insertionSort,
      List.orderedInsert, haggMA]
  refine ⟨?_, ?_, ?_⟩
  · rw [c9_eval_keys]
    exact List.Perm.refl _
  · rw [c9_eval_keys]
    exact List.Perm.swap _ _ _
  · intro heq
    have hC1 : (parse_and_aggregate_with_order c9Content c9Order1).1.1
        = [c9TradeA, c9TradeM] := by
      rw [c9_eval_order1]
      exact closed1
    have hC2 : (parse_and_aggregate_with_order c9Content c9Order2).1.1
        = [c9TradeM, c9TradeA] := by
      rw [c9_eval_order2]
      exact closed2
    have hx : [c9TradeA, c9TradeM] = [c9TradeM, c9TradeA] := by
      rw [← hC1, ← hC2, heq]
    have hsymbols := congrArg
      (List.map (fun t : AggregatedTrade => t.symbol)) hx
    simp only [List.map_cons, List.map_nil] at hsymbols
    rw [hsymA, hsymM] at hsymbols
    exact absurd hsymbols (by decide)

end FTJ

namespace FTJ

theorem validateExitsFrom_ok :
    ∀ (i : Nat) (exits : List ExitExecution),
      validateExitsFrom i exits = Except.ok () →
      ∀ e ∈ exits, 0 < e.quantity ∧ 0 < e.price ∧
        ∀ f, e.fees = some f → 0 ≤ f
  | _, [], _, e, he => absurd he (List.not_mem_nil e)
  | i, e0 :: rest, h, e, he => by
      unfold validateExitsFrom at h
      by_cases h1 : e0.quantity ≤ 0
      · simp [h1] at h
      · by_cases h2 : e0.price ≤ 0
        · simp [h1, h2] at h
        · rcases hf : e0.fees with _ | f0
          · simp [h1, h2, hf] at h
            rcases List.mem_cons.mp he with heq | hm
            · subst heq
              refine ⟨lt_of_not_le h1, lt_of_not_le h2, ?_⟩
              intro f hf'
              rw [hf] at hf'
              exact absurd hf' (by simp)
            · exact validateExitsFrom_ok (i + 1) rest h e hm
          · by_cases h3 : f0 < 0
            · simp [h1, h2, hf, h3] at h
            · simp [h1, h2, hf, h3] at h
              rcases List.mem_cons.mp he with heq | hm
              · subst heq
                refine ⟨lt_of_not_le h1, lt_of_not_le h2, ?_⟩
                intro f hf'
                rw [hf, Option.some_inj] at hf'
                rw [← hf']
                exact le_of_not_lt h3
              · exact validateExitsFrom_ok (i + 1) rest h e hm

theorem validate_input_ok_parts {input : CreateTradeInput}
    {exits : List ExitExecution} (hx : input.exits = some exits)
    (h : validate_input input = Except.ok ()) :
    validateExitsFrom 1 exits = Except.ok () ∧
      ∀ qq, input.quantity = some qq → 0 < qq := by
  unfold validate_input at h
  by_cases hep : input.entry_price ≤ 0
  · simp [hep, Bind.bind, Except.bind, Pure.pure, Except.pure] at h
  · rcases hq' : checkPos input.quantity "Quantity must be greater than 0"
        with m | u
    · simp [hep, hq', Bind.bind, Except.bind, Pure.pure, Except.pure] at h
    · rcases hxp : checkPos input.exit_price
          "Exit price must be greater than 0" with m | u2
      · simp [hep, hq', hxp, Bind.bind, Except.bind, Pure.pure, Except.pure] at h
      · rcases hsl : checkPos input.stop_loss_price
            "Stop loss price must be greater than 0" with m | u3
        · simp [hep, hq', hxp, hsl, Bind.bind, Except.bind, Pure.pure, Except.pure] at h
        · rcases hfee : checkNonnegFee input.fees "Fees cannot be negative"
              with m | u4
          · simp [hep, hq', hxp, hsl, hfee, Bind.bind, Except.bind, Pure.pure, Except.pure] at h
          · simp [hep, hq', hxp, hsl, hfee, hx, Bind.bind, Except.bind, Pure.pure, Except.pure] at h
            refine ⟨h, ?_⟩
            intro qq hqq
            rw [hqq] at hq'
            unfold checkPos at hq'
            by_cases hle : qq ≤ 0
            · simp [hle] at hq'
            · exact lt_of_not_le hle

end FTJ

namespace FTJ

/-- C7: manual trade creation with an entry quantity and exit legs.  Any
exit leg with non-positive quantity or price, or a negative fee, fails the
whole creation (no partial acceptance).  When validation passes: a total
exit quantity exceeding the entry quantity is rejected; an empty exit list
leaves the input untouched (status stays unset); otherwise creation
succeeds with exit price the quantity-weighted average of the legs, fees
increased by the summed leg fees (when that sum is positive), and status
closed exactly when the exited quantity equals the entry quantity within
epsilon 1e-4, open otherwise (the exited quantity then being strictly
smaller). -/
theorem create_trade_exits_characterization (input : CreateTradeInput)
    (q : F) (exits : List ExitExecution)
    (hq : input.quantity = some q) (hx : input.exits = some exits) :
    ((∃ e ∈ exits, e.quantity ≤ 0 ∨ e.price ≤ 0 ∨
        ∃ f, e.fees = some f ∧ f < 0) →
      ∃ msg, create_trade_processed input = .error msg) ∧
    (validate_input input = .ok () →
      ((exits.map (·.quantity)).sum > q →
        create_trade_processed input =
          .error "Total exit quantity cannot exceed entry quantity") ∧
      (exits = [] → create_trade_processed input = .ok input) ∧
      (exits ≠ [] → ¬ (exits.map (·.quantity)).sum > q →
        ∃ out, create_trade_processed input = .ok out ∧
          out.exit_price = some ((exits.map (fun e => e.price * e.quantity)).sum
            / (exits.map (·.quantity)).sum) ∧
          out.fees = (if (exits.filterMap (·.fees)).sum > 0 then
              some (input.fees.getD 0 + (exits.filterMap (·.fees)).sum)
            else input.fees) ∧
          (out.status = some Status.Closed ↔
            |(exits.map (·.quantity)).sum - q| < 1 / 10000) ∧
          (out.status = some Status.Open ↔
            ¬ |(exits.map (·.quantity)).sum - q| < 1 / 10000))) := by
  constructor
  · rintro ⟨e, he, hbad⟩
    rcases hval : validate_input input with m | u
    · exact ⟨m, by simp [create_trade_processed, hval, Bind.bind,
        Except.bind]⟩
    · exfalso
      obtain ⟨hv, -⟩ := validate_input_ok_parts hx hval
      obtain ⟨hq1, hp1, hf1⟩ := validateExitsFrom_ok 1 exits hv e he
      rcases hbad with hb | hb | ⟨f, hbf, hbneg⟩
      · exact absurd hq1 (not_lt.mpr hb)
      · exact absurd hp1 (not_lt.mpr hb)
      · exact absurd (hf1 f hbf) (not_le.mpr hbneg)
  · intro hval
    obtain ⟨hv, hqpos⟩ := validate_input_ok_parts hx hval
    have hq0 : 0 < q := hqpos q hq
    refine ⟨?_, ?_, ?_⟩
    · intro hgt
      have hne : exits ≠ [] := by
        intro h0
        rw [h0] at hgt
        simp at hgt
        exact absurd hq0 (not_lt.mpr (le_of_lt hgt))
      simp [create_trade_processed, process_exits, hx, hval, hq,
        Option.getD_some, if_neg hne, if_pos (And.intro hq0 hgt),
        Bind.bind, Except.bind, Pure.pure, Except.pure, hne]
    · intro h0
      subst h0
      simp [create_trade_processed, process_exits, hx, hval,
        Bind.bind, Except.bind, Pure.pure, Except.pure]
    · intro hne hngt
      have hlegs := validateExitsFrom_ok 1 exits hv
      have htq : 0 < (exits.map (fun e => e.quantity)).sum := by
        refine List.sum_pos _ ?_ ?_
        · intro x hx'
          obtain ⟨e, he, rfl⟩ := List.mem_map.mp hx'
          exact (hlegs e he).1
        · simp [hne]
      have hguard : ¬ (q > 0 ∧ (exits.map (fun e => e.quantity)).sum > q) :=
        fun hc => hngt hc.2
      by_cases hclose : |(exits.map (fun e => e.quantity)).sum - q| < 1 / 10000
      · simp only [create_trade_processed, process_exits, hx, hval, hq,
          Option.getD_some, if_neg hne, if_neg hguard, if_pos htq,
          if_pos (And.intro hq0 hclose),
          Bind.bind, Except.bind, Pure.pure, Except.pure]
        rcases htm : maxTimes (exits.filterMap (·.exit_time)) with _ | tm <;>
            rw [htm] <;>
              by_cases hfe : (exits.filterMap (·.fees)).sum > 0
        · rw [if_pos hfe]
          refine ⟨_, rfl, ?_, ?_, ?_, ?_⟩
          · rfl
          · rw [if_pos hfe]
          · exact Iff.intro (fun _ => hclose) (fun _ => rfl)
          · exact Iff.intro (fun h => Status.noConfusion (Option.some.inj h))
              (fun hn => absurd hclose hn)
        · rw [if_neg hfe]
          refine ⟨_, rfl, ?_, ?_, ?_, ?_⟩
          · rfl
          · rw [if_neg hfe]
          · exact Iff.intro (fun _ => hclose) (fun _ => rfl)
          · exact Iff.intro (fun h => Status.noConfusion (Option.some.inj h))
              (fun hn => absurd hclose hn)
        · rw [if_pos hfe]
          refine ⟨_, rfl, ?_, ?_, ?_, ?_⟩
          · rfl
          · rw [if_pos hfe]
          · exact Iff.intro (fun _ => hclose) (fun _ => rfl)
          · exact Iff.intro (fun h => Status.noConfusion (Option.some.inj h))
              (fun hn => absurd hclose hn)
        · rw [if_neg hfe]
          refine ⟨_, rfl, ?_, ?_, ?_, ?_⟩
          · rfl
          · rw [if_neg hfe]
          · exact Iff.intro (fun _ => hclose) (fun _ => rfl)
          · exact Iff.intro (fun h => Status.noConfusion (Option.some.inj h))
              (fun hn => absurd hclose hn)
      · have hlt : (exits.map (fun e => e.quantity)).sum < q := by
          rcases lt_or_eq_of_le (not_lt.mp hngt) with h | h
          · exact h
          · exfalso
            apply hclose
            rw [h, sub_self, abs_zero]
            norm_num
        have hnc : ¬ (q > 0 ∧
            |(exits.map (fun e => e.quantity)).sum - q| < 1 / 10000) :=
          fun hc => hclose hc.2
        simp only [create_trade_processed, process_exits, hx, hval, hq,
          Option.getD_some, if_neg hne, if_neg hguard, if_pos htq,
          if_neg hnc, if_pos (And.intro htq hlt),
          Bind.bind, Except.bind, Pure.pure, Except.pure]
        rcases htm : maxTimes (exits.filterMap (·.exit_time)) with _ | tm <;>
            rw [htm] <;>
              by_cases hfe : (exits.filterMap (·.fees)).sum > 0
        · rw [if_pos hfe]
          refine ⟨_, rfl, ?_, ?_, ?_, ?_⟩
          · rfl
          · rw [if_pos hfe]
          · exact Iff.intro (fun h => Status.noConfusion (Option.some.inj h))
              (fun hcl => absurd hcl hclose)
          · exact Iff.intro (fun _ => hclose) (fun _ => rfl)
        · rw [if_neg hfe]
          refine ⟨_, rfl, ?_, ?_, ?_, ?_⟩
          · rfl
          · rw [if_neg hfe]
          · exact Iff.intro (fun h => Status.noConfusion (Option.some.inj h))
              (fun hcl => absurd hcl hclose)
          · exact Iff.intro (fun _ => hclose) (fun _ => rfl)
        · rw [if_pos hfe]
          refine ⟨_, rfl, ?_, ?_, ?_, ?_⟩
          · rfl
          · rw [if_pos hfe]
          · exact Iff.intro (fun h => Status.noConfusion (Option.some.inj h))
              (fun hcl => absurd hcl hclose)
          · exact Iff.intro (fun _ => hclose) (fun _ => rfl)
        · rw [if_neg hfe]
          refine ⟨_, rfl, ?_, ?_, ?_, ?_⟩
          · rfl
          · rw [if_neg hfe]
          · exact Iff.intro (fun h => Status.noConfusion (Option.some.inj h))
              (fun hcl => absurd hcl hclose)
          · exact Iff.intro (fun _ => hclose) (fun _ => rfl)

end FTJ

namespace FTJ

/-- Witness for C7 at the concrete input with entry quantity 10 and the
two exit legs 4 @ 100 (fee 1) and 6 @ 110: the hypotheses hold by
computation and the characterization applies. -/
theorem create_trade_exits_characterization_witness :
    c7Input.quantity = some 10 ∧ c7Input.exits = some [c7Exit1, c7Exit2] ∧
    (((∃ e ∈ [c7Exit1, c7Exit2], e.quantity ≤ 0 ∨ e.price ≤ 0 ∨
        ∃ f, e.fees = some f ∧ f < 0) →
      ∃ msg, create_trade_processed c7Input = .error msg) ∧
    (validate_input c7Input = .ok () →
      (([c7Exit1, c7Exit2].map (·.quantity)).sum > 10 →
        create_trade_processed c7Input =
          .error "Total exit quantity cannot exceed entry quantity") ∧
      ([c7Exit1, c7Exit2] = [] →
        create_trade_processed c7Input = .ok c7Input) ∧
      ([c7Exit1, c7Exit2] ≠ [] →
        ¬ ([c7Exit1, c7Exit2].map (·.quantity)).sum > 10 →
        ∃ out, create_trade_processed c7Input = .ok out ∧
          out.exit_price = some
            (([c7Exit1, c7Exit2].map (fun e => e.price * e.quantity)).sum
              / ([c7Exit1, c7Exit2].map (·.quantity)).sum) ∧
          out.fees = (if ([c7Exit1, c7Exit2].filterMap (·.fees)).sum > 0 then
              some (c7Input.fees.getD 0 +
                ([c7Exit1, c7Exit2].filterMap (·.fees)).sum)
            else c7Input.fees) ∧
          (out.status = some Status.Closed ↔
            |([c7Exit1, c7Exit2].map (·.quantity)).sum - 10| < 1 / 10000) ∧
          (out.status = some Status.Open ↔
            ¬ |([c7Exit1, c7Exit2].map (·.quantity)).sum - 10| < 1 / 10000)))) := by
  refine ⟨rfl, rfl, ?_⟩
  exact create_trade_exits_characterization c7Input 10 [c7Exit1, c7Exit2]
    rfl rfl

end FTJ
